import Mathlib

/-!
Swift REPL front-end logic of LLDB.

A shallow embedding of the pure decision logic of
`lldb/source/Plugins/ExpressionParser/Swift/SwiftREPL.cpp`:

* `isThrownError`: classification of a result name as a thrown error;
* `GetIdentifier` and `GetDesiredIndentation`: indentation of the line being typed;
* `CompleteCode`: negotiation of completion candidates with the Swift completion oracle.

Strings of the source (`std::string`, `llvm::StringRef`, `ConstString`) are lists of
characters.  The Swift parser and the completion engine are external oracles and enter the
embedding as parameters.  Machine integers are integers reduced modulo the width of their
type where the source converts them.  A function of the source that reads a character outside a string
(undefined behaviour) or trips an assertion is modelled as returning `none`.
-/

namespace SwiftREPL

/-- Strings of the source are sequences of `char`. -/
abbrev Str := List Char

/-! ## `isThrownError` -/

/-- The `for` loop of `isThrownError` over the characters from index 2 on: it returns `false`
at the first character that is not a decimal digit. -/
def isThrownError.loop : Str → Bool
  | [] => true
  | digit :: rest =>
    if digit.toNat < ('0').toNat || digit.toNat > ('9').toNat then false
    else isThrownError.loop rest

/-- The function `isThrownError` of the source, on the name of the value object. -/
def isThrownError (name : Str) : Bool :=
  let length := name.length
  if length < 3 then false
  else if name.getD 0 (Char.ofNat 0) != '$' then false
  else if name.getD 1 (Char.ofNat 0) != 'E' then false
  else isThrownError.loop (name.drop 2)

/-! ## Indentation -/

/-- The result of `swift::ide::isSourceInputComplete`, the completeness oracle; the indent
level is a `uint32_t`. -/
structure SourceCompleteResult where
  IsComplete : Bool
  IndentPrefix : Str
  IndentLevel : Nat

/-- Modelled from the spec: the constant `LLDB_INVALID_OFFSET` of `lldb-defines.h`, the
sentinel meaning "no indentation change"; it is the largest value of `lldb::offset_t`. -/
def LLDB_INVALID_OFFSET : Int := 2 ^ 64 - 1

/-- The scan of `GetIdentifier` from index `i` over the characters that follow: the index of
the first character that is neither alphanumeric nor an underscore. -/
def GetIdentifier.loop : Str → Nat → Nat
  | [], i => i
  | ch :: rest, i =>
    if ch.isAlphanum || ch == '_' then GetIdentifier.loop rest (i + 1) else i

/-- The function `GetIdentifier` of the source. Both arguments are passed by reference: the
result is the returned flag, the new value of `s` and the new value of `identifier`. -/
def GetIdentifier (s identifier : Str) : Bool × Str × Str :=
  match s with
  | [] => (false, s, identifier)
  | ch :: _ =>
    if ch.isAlpha || ch == '_' then
      let i := GetIdentifier.loop (s.drop 1) 1
      (true, s.drop i, s.take i)
    else (false, s, identifier)

/-- Modelled from the spec: the characters `llvm::StringRef::ltrim` and `rtrim` remove, the
space characters (space, tab, newline, vertical tab, form feed, carriage return). -/
def isTrimChar (c : Char) : Bool :=
  c == ' ' || c == Char.ofNat 9 || c == Char.ofNat 10 || c == Char.ofNat 11 ||
    c == Char.ofNat 12 || c == Char.ofNat 13

/-- Modelled from the spec: `llvm::StringRef::ltrim`, which skips the leading spaces. -/
def ltrim (s : Str) : Str := s.dropWhile isTrimChar

/-- Modelled from the spec: `llvm::StringRef::rtrim`, which skips the trailing spaces. -/
def rtrim (s : Str) : Str := (s.reverse.dropWhile isTrimChar).reverse

/-- Modelled from the spec: `REPL::CalculateActualIndentation`, the number of spaces in
front of the first non-space character of the last line. -/
def CalculateActualIndentation (lines : List Str) : Nat :=
  ((lines.getLast?.getD []).takeWhile (fun ch => ch == ' ')).length

/-- The access `s[i]` of a `std::string`: the character at `i`, the terminator at `i = size`,
and no defined value outside. -/
def strAt (s : Str) (i : Int) : Option Char :=
  if i < 0 then none
  else if i.toNat < s.length then s[i.toNat]?
  else if i.toNat = s.length then some (Char.ofNat 0)
  else none

/-- The call `s.find_last_of(c)` of a `std::string`: the index of the last `c`, `none` for
`npos`. -/
def find_last_of : Str → Char → Option Nat
  | [], _ => none
  | x :: xs, c =>
    match find_last_of xs c with
    | some p => some (p + 1)
    | none => if x == c then some 0 else none

/-- The condition `cursor_position == 0 || last_line[cursor_position - 1] == c`, evaluated
left to right. -/
def cursorAfter (last_line : Str) (cursor_position : Int) (c : Char) : Option Bool :=
  if cursor_position = 0 then some true
  else (strAt last_line (cursor_position - 1)).map (fun ch => ch == c)

/-- Conversion to `uint32_t`: the value modulo 2^32. -/
def toUInt32 (x : Int) : Int := x % 2 ^ 32

/-- Conversion to a 32-bit `int`: the value modulo 2^32, in two's complement. -/
def toInt32 (x : Int) : Int := (x + 2 ^ 31) % 2 ^ 32 - 2 ^ 31

/-- Conversion to `size_t` and to `lldb::offset_t`, both unsigned and 64 bits wide: the
value modulo 2^64. -/
def toUInt64 (x : Int) : Int := x % 2 ^ 64

/-- The initialisation
`int desired_indent = (result.IndentLevel * tab_size) + result.IndentPrefix.length();`:
the product of the `uint32_t` level and the `int` tab size is taken in `uint32_t`, the sum
with the length in `size_t`, and the sum is converted to `int`. -/
def desiredIndent (result : SourceCompleteResult) (tab_size : Int) : Int :=
  toInt32 (toUInt64 (toUInt32 (toUInt32 result.IndentLevel * toUInt32 tab_size) +
    toUInt64 result.IndentPrefix.length))

/-- The block `desired_indent -= tab_size; if (desired_indent < 0) desired_indent = 0;` that
both outdent rules run before they return; the subtraction is taken in the 32-bit `int`,
wrapping in two's complement. -/
def unindent (desired_indent tab_size : Int) : Int :=
  let desired_indent := toInt32 (desired_indent - tab_size)
  if desired_indent < 0 then 0 else desired_indent

/-- The first `if` of `GetDesiredIndentation`, the brace rule: `some (some r)` when it returns
`r`, `some none` when control falls through. -/
def braceRule (lines : List Str) (last_line : Str)
    (cursor_position tab_size desired_indent : Int) : Option (Option Int) :=
  (cursorAfter last_line cursor_position '}').bind fun trigger =>
    if trigger then
      let actual_indent := CalculateActualIndentation lines
      if last_line.length > actual_indent then
        (strAt last_line actual_indent).bind fun ch =>
          if ch == '}' then some (some (unindent desired_indent tab_size)) else some none
      else some none
    else some none

/-- The test `line.front() == '(' && line.back() == ')'`; `front` and `back` assert that the
string is not empty. -/
def wrappedInParens (line : Str) : Option Bool :=
  match line.head? with
  | none => none
  | some f => if f == '(' then line.getLast?.map (fun b => b == ')') else some false

/-- The value of the local `outdent` of the colon rule, from the text `line` that follows the
identifier. -/
def colonOutdent (line identifier : Str) : Option Bool :=
  let line := ltrim line
  if line.isEmpty then some (identifier != "case".toList)
  else if identifier == "case".toList then some true
  else wrappedInParens (rtrim line)

/-- The second `if` of `GetDesiredIndentation`, the colon rule: `some (some r)` when it
returns `r`, `some none` when control falls through. -/
def colonRule (last_line : Str) (cursor_position tab_size desired_indent : Int) :
    Option (Option Int) :=
  (cursorAfter last_line cursor_position ':').bind fun trigger =>
    if trigger then
      match find_last_of last_line ':' with
      | none => some none
      | some colon_pos =>
        let line_to_colon := last_line.take colon_pos
        let line := ltrim line_to_colon
        if !line.isEmpty then
          match GetIdentifier line [] with
          | (true, line, identifier) =>
            (colonOutdent line identifier).bind fun outdent =>
              if outdent then some (some (unindent desired_indent tab_size)) else some none
          | (false, _, _) => some none
        else some none
    else some none

/-- The method `SwiftREPL::GetDesiredIndentation`. The oracle `isSourceInputComplete` is
asked about the lines without the last one. The local `desired_indent` is a 32-bit `int`,
and a returned `int` is converted to the unsigned 64-bit `lldb::offset_t`. -/
def GetDesiredIndentation (isSourceInputComplete : List Str → SourceCompleteResult)
    (lines : List Str) (cursor_position tab_size : Int) : Option Int :=
  match lines.getLast? with
  | none => none
  | some last_line =>
    let prior_lines := lines.dropLast
    let result := isSourceInputComplete prior_lines
    let desired_indent : Int := desiredIndent result tab_size
    match braceRule lines last_line cursor_position tab_size desired_indent with
    | none => none
    | some (some r) => some (toUInt64 r)
    | some none =>
      match colonRule last_line cursor_position tab_size desired_indent with
      | none => none
      | some (some r) => some (toUInt64 r)
      | some none =>
        if cursor_position = 0 then some (toUInt64 desired_indent)
        else some LLDB_INVALID_OFFSET

/-! ## Completion -/

/-- The states of the completion oracle, `swift::CompletionState`. -/
inductive CompletionState
  | Invalid
  | Empty
  | Unique
  | CompletedRoot
  | DisplayedCompletionList
  deriving DecidableEq, Repr

/-- The modes of a completion, `lldb::CompletionMode`. -/
inductive CompletionMode
  | Normal
  | Partial
  | RewriteLine
  deriving DecidableEq, Repr

/-- One call of `CompletionRequest::AddCompletion`: the completion, the description and the
mode; an argument that the call leaves to the default of the declaration is `none`. -/
structure Completion where
  completion : Str
  description : Option Str
  mode : Option CompletionMode
  deriving DecidableEq, Repr

/-- The completion request: the token in front of the cursor, which
`GetCursorArgumentPrefix` returns, and the completions added so far, in order. -/
structure CompletionRequest where
  cursorArgument : Str
  completions : List Completion
  deriving DecidableEq, Repr

/-- Modelled from the spec: `CompletionRequest::AddCompletion`, which hands one more
candidate to the request. -/
def CompletionRequest.AddCompletion (request : CompletionRequest) (completion : Str)
    (description : Option Str) (mode : Option CompletionMode) : CompletionRequest :=
  { request with completions := request.completions ++ [⟨completion, description, mode⟩] }

/-- The answers of the completion oracle `swift::REPLCompletions` once `populate` has run:
`getRoot()`, `getState()`, `getCompletionList()` and the insertable string of
`getPreviousStem()`. -/
structure REPLCompletions where
  Root : Str
  State : CompletionState
  CompletionList : List Str
  PreviousStem : Str

/-- The completion module with its main source file: what `populate` answers on the code
typed so far. -/
abbrev ReplModule := Str → REPLCompletions

/-- The Swift AST context: the answers of `GetModule` and `CreateModule` for the module
`repl`, `none` for a null pointer. -/
structure SwiftASTContextForExpressions where
  GetModule : Option ReplModule
  CreateModule : Option ReplModule

/-- The answer of `GetScratchTypeSystemForLanguage` followed by the two casts: an error, a
type system that is not the Swift one (the null `swift_ts` is then dereferenced), or the
Swift type system with its AST context, `none` for a null pointer. -/
inductive ScratchTypeSystem
  | error
  | notSwift
  | swift (target_swift_ast : Option SwiftASTContextForExpressions)

/-- The members of `SwiftREPL` that `CompleteCode` reads and writes. -/
structure REPLState where
  m_swift_ast : Option SwiftASTContextForExpressions
  m_completion_module_initialized : Bool

/-- The first part of `CompleteCode`, up to `if (repl_module)`: `some (some (state, m))`
when the AST context and the completion module `m` are there, `some none` when the method
ends without a completion, `none` when a null pointer is dereferenced. -/
def acquireModule (scratch : ScratchTypeSystem) (state : REPLState) :
    Option (Option (REPLState × ReplModule)) :=
  let swift_ast : Option (Option SwiftASTContextForExpressions) :=
    match state.m_swift_ast with
    | some ast => some (some ast)
    | none =>
      match scratch with
      | ScratchTypeSystem.error => some none
      | ScratchTypeSystem.notSwift => none
      | ScratchTypeSystem.swift target_swift_ast => some target_swift_ast
  match swift_ast with
  | none => none
  | some none => some none
  | some (some swift_ast) =>
    let state := { state with m_swift_ast := some swift_ast }
    let repl_module : Option ReplModule :=
      if state.m_completion_module_initialized then swift_ast.GetModule else none
    match repl_module with
    | some m => some (some (state, m))
    | none =>
      match swift_ast.CreateModule with
      | none => none
      | some m => some (some ({ state with m_completion_module_initialized := true }, m))

/-- The second part of `CompleteCode`, from the call of `populate` on: the completions added
to the request, `none` when `llvm_unreachable` is reached. -/
def addCompletions (completions : REPLCompletions) (request : CompletionRequest) :
    Option CompletionRequest :=
  let pfx := request.cursorArgument
  let root := completions.Root
  if !root.isEmpty then
    some (request.AddCompletion (pfx ++ root) (some []) (some CompletionMode.Partial))
  else
    match completions.State with
    | CompletionState.CompletedRoot =>
      some (completions.CompletionList.foldl
        (fun request llvm_match =>
          if !llvm_match.isEmpty then request.AddCompletion pfx (some llvm_match) none
          else request)
        request)
    | CompletionState.DisplayedCompletionList =>
      some (request.AddCompletion (pfx ++ completions.PreviousStem) none none)
    | CompletionState.Empty | CompletionState.Unique =>
      let root := completions.Root
      if !root.isEmpty then some (request.AddCompletion (pfx ++ root) none none)
      else some request
    | CompletionState.Invalid => none

/-- The method `SwiftREPL::CompleteCode`: the new state of the REPL and the request with the
completions added. -/
def CompleteCode (scratch : ScratchTypeSystem) (state : REPLState) (current_code : Str)
    (request : CompletionRequest) : Option (REPLState × CompletionRequest) :=
  match acquireModule scratch state with
  | none => none
  | some none => some (state, request)
  | some (some (state, repl_module)) =>
    let completions := repl_module current_code
    (addCompletions completions request).map fun request => (state, request)

/-! ## Presentation of a value -/

/-- The formats of `lldb::Format` that `PrintOneVariable` tells apart: the default, the void
format, and any other one by its code. -/
inductive Format
  | eFormatDefault
  | eFormatVoid
  | other (code : Nat)
  deriving DecidableEq, Repr

/-- What the source reads of a `CompilerType`: the flags `eTypeIsSwift` and `eTypeIsTuple`
of `GetTypeInfo()`, and `GetNumFields()`. -/
structure CompilerType where
  IsSwift : Bool
  IsTuple : Bool
  NumFields : Nat
  deriving DecidableEq, Repr

/-- What the source reads of a value object: its name and its type. -/
structure ValueObject where
  Name : Str
  compilerType : CompilerType
  deriving DecidableEq, Repr

/-- What the source reads of an expression variable: its value object, `none` for a null
pointer, its name, and the flag `GetIsComputed()`. -/
structure ExpressionVariable where
  valueObject : Option ValueObject
  Name : Str
  IsComputed : Bool
  deriving DecidableEq, Repr

/-- The settings of the debugger that `PrintOneVariable` reads. -/
structure Debugger where
  UseColor : Bool
  NotifyVoid : Bool
  deriving DecidableEq, Repr

/-- The call `name.AsCString(value_if_empty)` of a `ConstString`: the characters of the
name, and `value_if_empty` for the empty name. -/
def AsCString (name value_if_empty : Str) : Str :=
  if name.isEmpty then value_if_empty else name

/-- The colour written in front of a dumped value. -/
inductive Color
  | red
  | cyan
  deriving DecidableEq, Repr

/-- The options `PrintOneVariable` sets before it dumps the value; `computedSummary` is the
summary that replaces value and children of a computed property. -/
structure DumpValueObjectOptions where
  MaximumPointerDepth : Nat
  UseSyntheticValue : Bool
  RevealEmptyAggregates : Bool
  HidePointerValue : Bool
  computedSummary : Option Str
  deriving DecidableEq, Repr

/-- What `PrintOneVariable` writes for a value it renders: the format it sets on the value
object, if any, the colour, if the output is colorized, and the options of the dump. -/
structure Dump where
  SetFormat : Option Format
  color : Option Color
  options : DumpValueObjectOptions
  deriving DecidableEq, Repr

/-- The method `SwiftREPL::PrintOneVariable`, with the format of `m_format_options`: the
returned flag `handled`, and the dump written to the output, `none` when nothing is
written. -/
def PrintOneVariable (debugger : Debugger) (m_format : Format) (valobj_sp : ValueObject)
    (var : Option ExpressionVariable) : Bool × Option Dump :=
  let computed : Option Bool :=
    match var with
    | none => some false
    | some var =>
      match var.valueObject with
      | some valobj_sp =>
        let is_swift := valobj_sp.compilerType.IsSwift
        if (AsCString var.Name "anonymous".toList).head? != some '$' && is_swift then
          some var.IsComputed
        else none
      | none => none
  match computed with
  | none => (false, none)
  | some is_computed =>
    let colorize_out := debugger.UseColor
    let format := m_format
    let treat_as_void := format == Format.eFormatVoid
    let treat_as_void :=
      if !treat_as_void && !debugger.NotifyVoid then
        let expr_type := valobj_sp.compilerType
        if expr_type.IsSwift && expr_type.IsTuple then expr_type.NumFields == 0
        else treat_as_void
      else treat_as_void
    if !treat_as_void then
      (true, some
        { SetFormat := if format != Format.eFormatDefault then some format else none,
          color :=
            if colorize_out then
              some (if isThrownError valobj_sp.Name then Color.red else Color.cyan)
            else none,
          options :=
            { MaximumPointerDepth := 1,
              UseSyntheticValue := true,
              RevealEmptyAggregates := false,
              HidePointerValue := true,
              computedSummary :=
                if is_computed then some "<computed property>".toList else none } })
    else (false, none)

/-! ## The empty array buffer -/

/-- The class `SwiftArrayEmptyBufferHandler` of `SwiftArray.h`, with its one member. -/
structure SwiftArrayEmptyBufferHandler where
  m_elem_type : CompilerType
  deriving DecidableEq, Repr

/-- The method `GetCount` of the empty buffer. -/
def SwiftArrayEmptyBufferHandler.GetCount (_handler : SwiftArrayEmptyBufferHandler) : Nat := 0

/-- The method `GetCapacity` of the empty buffer. -/
def SwiftArrayEmptyBufferHandler.GetCapacity (_handler : SwiftArrayEmptyBufferHandler) :
    Nat := 0

/-- The method `GetElementType` of the empty buffer. -/
def SwiftArrayEmptyBufferHandler.GetElementType (handler : SwiftArrayEmptyBufferHandler) :
    CompilerType := handler.m_elem_type

/-- The method `GetElementAtIndex` of the empty buffer: the null `ValueObjectSP`, `none`,
at every index. -/
def SwiftArrayEmptyBufferHandler.GetElementAtIndex (_handler : SwiftArrayEmptyBufferHandler)
    (_index : Nat) : Option ValueObject := none

/-- The method `IsValid` of the empty buffer. -/
def SwiftArrayEmptyBufferHandler.IsValid (_handler : SwiftArrayEmptyBufferHandler) : Bool :=
  true

/-! ## Properties of `isThrownError` -/

/-- The digit loop accepts exactly the strings made of decimal digits. -/
theorem isThrownError_loop_iff (l : Str) :
    isThrownError.loop l = true ↔
      ∀ c ∈ l, ('0').toNat ≤ c.toNat ∧ c.toNat ≤ ('9').toNat := by
  induction l with
  | nil => simp [isThrownError.loop]
  | cons d rest ih =>
    simp only [isThrownError.loop, List.mem_cons, forall_eq_or_imp]
    by_cases h : d.toNat < ('0').toNat ∨ d.toNat > ('9').toNat
    · have : (decide (d.toNat < ('0').toNat) || decide (d.toNat > ('9').toNat)) = true := by
        simpa using h
      rw [if_pos this]
      constructor
      · intro h'; cases h'
      · rintro ⟨⟨h1, h2⟩, -⟩; omega
    · have : ¬ (decide (d.toNat < ('0').toNat) || decide (d.toNat > ('9').toNat)) = true := by
        simpa using h
      rw [if_neg this, ih]
      constructor
      · intro h'; exact ⟨by omega, h'⟩
      · rintro ⟨-, h'⟩; exact h'

/-- Claim C1: `isThrownError` accepts a name exactly when it has at least three characters,
starts with `$` and `E`, and has only decimal digits from index 2 on; `$E12` is a thrown
error, and `$Eabc`, `$`, `E12`, the empty name and `$E` are not. -/
theorem isThrownError_spec :
    (∀ name : Str, isThrownError name = true ↔
      (3 ≤ name.length ∧ name[0]? = some '$' ∧ name[1]? = some 'E' ∧
        ∀ (i : Nat) (c : Char), 2 ≤ i → name[i]? = some c →
          ('0').toNat ≤ c.toNat ∧ c.toNat ≤ ('9').toNat)) ∧
    isThrownError "$E12".toList = true ∧
    isThrownError "$Eabc".toList = false ∧
    isThrownError "$".toList = false ∧
    isThrownError "E12".toList = false ∧
    isThrownError "".toList = false ∧
    isThrownError "$E".toList = false := by
  refine ⟨?_, by decide, by decide, by decide, by decide, by decide, by decide⟩
  intro name
  match name with
  | [] => simp [isThrownError]
  | [_] => simp [isThrownError]
  | [_, _] => simp [isThrownError]
  | a :: b :: c :: rest =>
    have hloop := isThrownError_loop_iff (c :: rest)
    have hidx : (∀ (i : Nat) (x : Char), 2 ≤ i → (a :: b :: c :: rest)[i]? = some x →
          ('0').toNat ≤ x.toNat ∧ x.toNat ≤ ('9').toNat) ↔
        ∀ x ∈ c :: rest, ('0').toNat ≤ x.toNat ∧ x.toNat ≤ ('9').toNat := by
      constructor
      · intro h x hx
        obtain ⟨n, hn⟩ := List.mem_iff_getElem?.mp hx
        exact h (n + 2) x (by omega) (by simpa using hn)
      · intro h i x hi hx
        obtain ⟨k, rfl⟩ : ∃ k, i = k + 2 := ⟨i - 2, by omega⟩
        exact h x (List.mem_iff_getElem?.mpr ⟨k, by simpa using hx⟩)
    rw [hidx, ← hloop]
    by_cases ha : a = '$' <;> by_cases hb : b = 'E' <;> simp [isThrownError, ha, hb]

/-! ## Auxiliary facts on strings -/

/-- The character at the end of the longest prefix satisfying `p` is the head of the rest. -/
theorem getElem?_takeWhile_length (p : Char → Bool) (s : Str) :
    s[(s.takeWhile p).length]? = (s.dropWhile p).head? := by
  induction s with
  | nil => simp
  | cons a t ih =>
    by_cases h : p a = true
    · simp [List.takeWhile_cons, List.dropWhile_cons, h, ih]
    · simp [List.takeWhile_cons, List.dropWhile_cons, h]

/-- Inside the string, `strAt` is the list access. -/
theorem strAt_natCast (s : Str) (n : Nat) (h : n < s.length) : strAt s (n : Int) = s[n]? := by
  unfold strAt
  have h0 : ¬ ((n : Int) < 0) := by omega
  simp [h0, h]

/-- The guard of the brace rule reads the first character that is not a space. -/
theorem brace_guard (s : Str) :
    (s.takeWhile (fun ch => ch == ' ')).length < s.length ∧
        strAt s ((s.takeWhile (fun ch => ch == ' ')).length : Nat) = some '}' ↔
      (s.dropWhile (fun ch => ch == ' ')).head? = some '}' := by
  constructor
  · rintro ⟨hlt, hat⟩
    rw [strAt_natCast s _ hlt, getElem?_takeWhile_length] at hat
    exact hat
  · intro h
    have hget := getElem?_takeWhile_length (fun ch => ch == ' ') s
    rw [h] at hget
    have hlt : (s.takeWhile (fun ch => ch == ' ')).length < s.length := by
      by_contra hge
      rw [List.getElem?_eq_none (by omega)] at hget
      cases hget
    exact ⟨hlt, by rw [strAt_natCast s _ hlt, hget]⟩

/-! ## The two outdent rules -/

/-- The brace rule returns the outdent when its trigger holds and the first character that is
not a space is a closing brace. -/
theorem braceRule_applies (lines : List Str) (last_line : Str) (cursor_position tab_size d : Int)
    (hlast : lines.getLast? = some last_line)
    (hcursor : cursor_position = 0 ∨ strAt last_line (cursor_position - 1) = some '}')
    (hbrace : (last_line.dropWhile (fun ch => ch == ' ')).head? = some '}') :
    braceRule lines last_line cursor_position tab_size d = some (some (unindent d tab_size)) := by
  obtain ⟨hlt, hat⟩ := (brace_guard last_line).mpr hbrace
  have htrig : cursorAfter last_line cursor_position '}' = some true := by
    unfold cursorAfter
    rcases hcursor with h | h
    · simp [h]
    · by_cases h0 : cursor_position = 0
      · simp [h0]
      · simp [h0, h]
  simp [braceRule, htrig, CalculateActualIndentation, hlast, hlt, hat]

/-- The brace rule falls through when its trigger or its guard fails, provided the character
in front of the cursor can be read. -/
theorem braceRule_falls_through (lines : List Str) (last_line : Str)
    (cursor_position tab_size d : Int)
    (hlast : lines.getLast? = some last_line)
    (hread : cursor_position = 0 ∨ ∃ ch, strAt last_line (cursor_position - 1) = some ch)
    (hnot : ¬ ((cursor_position = 0 ∨ strAt last_line (cursor_position - 1) = some '}') ∧
      (last_line.dropWhile (fun ch => ch == ' ')).head? = some '}')) :
    braceRule lines last_line cursor_position tab_size d = some none := by
  by_cases htrig : cursor_position = 0 ∨ strAt last_line (cursor_position - 1) = some '}'
  · have hbrace : ¬ (last_line.dropWhile (fun ch => ch == ' ')).head? = some '}' :=
      fun h => hnot ⟨htrig, h⟩
    have hc : cursorAfter last_line cursor_position '}' = some true := by
      unfold cursorAfter
      rcases htrig with h | h
      · simp [h]
      · by_cases h0 : cursor_position = 0
        · simp [h0]
        · simp [h0, h]
    by_cases hlt : (last_line.takeWhile (fun ch => ch == ' ')).length < last_line.length
    · have hat : strAt last_line ((last_line.takeWhile (fun ch => ch == ' ')).length : Nat)
          = (last_line.dropWhile (fun ch => ch == ' ')).head? := by
        rw [strAt_natCast _ _ hlt, getElem?_takeWhile_length]
      cases hh : (last_line.dropWhile (fun ch => ch == ' ')).head? with
      | none =>
        exfalso
        have hget := getElem?_takeWhile_length (fun ch => ch == ' ') last_line
        rw [hh, List.getElem?_eq_none_iff] at hget
        omega
      | some ch =>
        have hne : ch ≠ '}' := by
          intro h; apply hbrace; rw [hh, h]
        simp [braceRule, hc, CalculateActualIndentation, hlast, hlt, hat, hh, hne]
    · simp [braceRule, hc, CalculateActualIndentation, hlast, hlt]
  · have h0 : cursor_position ≠ 0 := fun h => htrig (Or.inl h)
    rcases hread with h | ⟨ch, hch⟩
    · exact absurd h h0
    · have hne : ch ≠ '}' := by
        intro h; apply htrig; right; rw [hch, h]
      simp [braceRule, cursorAfter, h0, hch, hne]

/-- The colon rule falls through when the cursor is neither at column 0 nor behind a colon. -/
theorem colonRule_no_trigger (last_line : Str) (cursor_position tab_size d : Int) (ch : Char)
    (h0 : cursor_position ≠ 0) (hch : strAt last_line (cursor_position - 1) = some ch)
    (hne : ch ≠ ':') :
    colonRule last_line cursor_position tab_size d = some none := by
  simp [colonRule, cursorAfter, h0, hch, hne]


/-! ## Machine arithmetic of the indentation -/

/-- A value in the range of a 32-bit `int` is not changed by the conversion to `int`. -/
theorem toInt32_of_fits (x : Int) (h0 : -2 ^ 31 ≤ x) (h1 : x < 2 ^ 31) : toInt32 x = x := by
  unfold toInt32
  norm_num at *
  omega

/-- A value in the range of `lldb::offset_t` is not changed by the conversion to it. -/
theorem toUInt64_of_fits (x : Int) (h0 : 0 ≤ x) (h1 : x < 2 ^ 64) : toUInt64 x = x := by
  unfold toUInt64
  exact Int.emod_eq_of_lt h0 h1

/-- When the baseline is in the range of a 32-bit `int`, `desired_indent` is the baseline. -/
theorem desiredIndent_of_fits (result : SourceCompleteResult) (tab_size : Int)
    (h0 : -2 ^ 31 ≤ result.IndentLevel * tab_size + result.IndentPrefix.length)
    (h1 : result.IndentLevel * tab_size + result.IndentPrefix.length < 2 ^ 31) :
    desiredIndent result tab_size =
      result.IndentLevel * tab_size + result.IndentPrefix.length := by
  unfold desiredIndent toUInt32 toUInt64 toInt32
  rw [← Int.mul_emod]
  generalize (result.IndentLevel : Int) * tab_size = p at *
  generalize (result.IndentPrefix.length : Int) = q at *
  norm_num at *
  omega

/-- For a tab size that is not negative the baseline is not negative. -/
theorem baseline_nonneg (result : SourceCompleteResult) (tab_size : Int)
    (htab : 0 ≤ tab_size) :
    (0 : Int) ≤ result.IndentLevel * tab_size + result.IndentPrefix.length := by
  positivity

/-- The value returned on the baseline path, when the baseline is a non-negative value of a
32-bit `int`. -/
theorem baseline_value (result : SourceCompleteResult) (tab_size : Int)
    (h0 : 0 ≤ result.IndentLevel * tab_size + result.IndentPrefix.length)
    (hfit : result.IndentLevel * tab_size + result.IndentPrefix.length < 2 ^ 31) :
    toUInt64 (desiredIndent result tab_size) =
      result.IndentLevel * tab_size + result.IndentPrefix.length := by
  rw [desiredIndent_of_fits result tab_size (by norm_num at *; omega) hfit]
  exact toUInt64_of_fits _ h0 (by norm_num at *; omega)

/-- The value returned by an outdent, when the tab size is a non-negative `int` and the
baseline is a value of a 32-bit `int`: the baseline less one tab stop, clamped at 0. -/
theorem outdent_value (result : SourceCompleteResult) (tab_size : Int)
    (htab : 0 ≤ tab_size) (htabmax : tab_size < 2 ^ 31)
    (hfit : result.IndentLevel * tab_size + result.IndentPrefix.length < 2 ^ 31) :
    toUInt64 (unindent (desiredIndent result tab_size) tab_size) =
      max 0 (result.IndentLevel * tab_size + result.IndentPrefix.length - tab_size) := by
  have h0 := baseline_nonneg result tab_size htab
  rw [desiredIndent_of_fits result tab_size (by norm_num at *; omega) hfit]
  generalize (result.IndentLevel : Int) * tab_size + result.IndentPrefix.length = b at *
  have hsub : toInt32 (b - tab_size) = b - tab_size :=
    toInt32_of_fits _ (by norm_num at *; omega) (by norm_num at *; omega)
  unfold unindent
  simp only [hsub]
  by_cases h : b - tab_size < 0
  · simp only [h, if_true]
    rw [toUInt64_of_fits 0 (le_refl 0) (by norm_num)]
    omega
  · simp only [h, if_false]
    rw [toUInt64_of_fits _ (by omega) (by norm_num at *; omega)]
    omega

/-- The body of `GetDesiredIndentation` once the last line is known. -/
theorem GetDesiredIndentation_of_last (probe : List Str → SourceCompleteResult)
    (lines : List Str) (last_line : Str) (cursor_position tab_size : Int)
    (hlast : lines.getLast? = some last_line) :
    GetDesiredIndentation probe lines cursor_position tab_size =
      match braceRule lines last_line cursor_position tab_size
          (desiredIndent (probe lines.dropLast) tab_size) with
      | none => none
      | some (some r) => some (toUInt64 r)
      | some none =>
        match colonRule last_line cursor_position tab_size
            (desiredIndent (probe lines.dropLast) tab_size) with
        | none => none
        | some (some r) => some (toUInt64 r)
        | some none =>
          if cursor_position = 0 then
            some (toUInt64 (desiredIndent (probe lines.dropLast) tab_size))
          else some LLDB_INVALID_OFFSET := by
  simp only [GetDesiredIndentation, hlast]

/-- Whether the brace rule falls through does not depend on the indentation it is given. -/
theorem braceRule_falls_through_indep (lines : List Str) (last_line : Str)
    (cursor_position tab_size d1 d2 : Int)
    (h : braceRule lines last_line cursor_position tab_size d1 = some none) :
    braceRule lines last_line cursor_position tab_size d2 = some none := by
  unfold braceRule at h ⊢
  cases hc : cursorAfter last_line cursor_position '}' with
  | none => rw [hc] at h; simp at h
  | some b =>
    rw [hc] at h
    cases b with
    | false => simp
    | true =>
      simp only [Option.some_bind, if_true] at h ⊢
      by_cases hlt : last_line.length > CalculateActualIndentation lines
      · simp only [hlt, if_true] at h ⊢
        cases hs : strAt last_line (CalculateActualIndentation lines) with
        | none => rw [hs] at h; simp at h
        | some ch =>
          rw [hs] at h
          by_cases hch : ch = '}'
          · simp [hch] at h
          · simp [hch]
      · simp [hlt]

/-- Whether the colon rule falls through does not depend on the indentation it is given. -/
theorem colonRule_falls_through_indep (last_line : Str)
    (cursor_position tab_size d1 d2 : Int)
    (h : colonRule last_line cursor_position tab_size d1 = some none) :
    colonRule last_line cursor_position tab_size d2 = some none := by
  unfold colonRule at h ⊢
  cases hc : cursorAfter last_line cursor_position ':' with
  | none => rw [hc] at h; simp at h
  | some b =>
    rw [hc] at h
    cases b with
    | false => simp
    | true =>
      simp only [Option.some_bind, if_true] at h ⊢
      cases hfind : find_last_of last_line ':' with
      | none => rfl
      | some colon_pos =>
        rw [hfind] at h
        simp only [] at h ⊢
        by_cases hempty : (ltrim (List.take colon_pos last_line)).isEmpty = true
        · simp [hempty]
        · simp only [hempty, Bool.not_false, Bool.not_eq_true', if_true] at h ⊢
          rcases hid : GetIdentifier (ltrim (List.take colon_pos last_line)) [] with
            ⟨flag, rest, ident⟩
          rw [hid] at h
          cases flag with
          | false => rfl
          | true =>
            simp only [] at h ⊢
            cases ho : colonOutdent rest ident with
            | none => rw [ho] at h; simp at h
            | some o =>
              rw [ho] at h
              cases o with
              | false => simp
              | true => simp at h

/-! ## Properties of `GetDesiredIndentation` -/

/-- Claim C2, as stated, fails where the 32-bit arithmetic wraps: on the line of a single
closing brace with the cursor at column 0, indent level 3 and tab size 2147483647, the
product wraps to 2147483645, one tab stop less is -2, and the result is 0, not the claimed
4294967294. -/
theorem brace_outdent_counterexample :
    (["\x7d".toList] : List Str).getLast? = some "\x7d".toList ∧
    (0 : Int) ≤ 2147483647 ∧
    ((0 : Int) = 0 ∨ strAt "\x7d".toList (0 - 1) = some '}') ∧
    ("\x7d".toList.dropWhile (fun ch => ch == ' ')).head? = some '}' ∧
    GetDesiredIndentation (fun _ => ⟨false, [], 3⟩) ["\x7d".toList] 0 2147483647 = some 0 ∧
    GetDesiredIndentation (fun _ => ⟨false, [], 3⟩) ["\x7d".toList] 0 2147483647 ≠
      some (max 0 ((3 : Nat) * 2147483647 + (([] : Str).length : Int) - 2147483647)) := by
  decide

/-- Claim C2, amended: when the tab size is a non-negative `int` and the baseline
`indentLevel * tabSize + len(indentPrefix)` is below 2^31, the cursor is at column 0 or
right behind a closing brace, and the first character of the last line that is not a space
is a closing brace, the result is the baseline less one tab stop, clamped at 0. -/
theorem brace_outdent (probe : List Str → SourceCompleteResult) (lines : List Str)
    (last_line : Str) (cursor_position tab_size : Int)
    (hlast : lines.getLast? = some last_line)
    (htab : 0 ≤ tab_size) (htabmax : tab_size < 2 ^ 31)
    (hfit : (probe lines.dropLast).IndentLevel * tab_size +
      (probe lines.dropLast).IndentPrefix.length < 2 ^ 31)
    (hcursor : cursor_position = 0 ∨ strAt last_line (cursor_position - 1) = some '}')
    (hbrace : (last_line.dropWhile (fun ch => ch == ' ')).head? = some '}') :
    GetDesiredIndentation probe lines cursor_position tab_size =
      some (max 0 ((probe lines.dropLast).IndentLevel * tab_size +
        (probe lines.dropLast).IndentPrefix.length - tab_size)) := by
  rw [GetDesiredIndentation_of_last probe lines last_line cursor_position tab_size hlast,
    braceRule_applies lines last_line cursor_position tab_size _ hlast hcursor hbrace]
  simp only [outdent_value (probe lines.dropLast) tab_size htab htabmax hfit]

/-- The brace outdent at the line ` }` typed under one open block indented by two spaces,
with tab size 4: the result is 2. -/
theorem brace_outdent_witness :
    GetDesiredIndentation (fun _ => ⟨false, "  ".toList, 1⟩)
        ["  if x \x7b".toList, " \x7d".toList] 2 4 = some 2 :=
  (brace_outdent (fun _ => ⟨false, "  ".toList, 1⟩) ["  if x \x7b".toList, " \x7d".toList]
    " \x7d".toList 2 4 (by decide) (by decide) (by decide) (by decide) (by decide)
    (by decide)).trans (by decide)

/-- Claim C3, as stated, fails where the machine arithmetic leaves the baseline: on a fresh
line at column 0, indent level 2^30 with tab size 4 wraps to the result 0, not the baseline
4294967296; and indent level 1 with tab size -4 gives the `int` -4, returned as the offset
2^64 - 4. -/
theorem fresh_line_baseline_counterexample :
    ([[]] : List Str).getLast? = some [] ∧
    GetDesiredIndentation (fun _ => ⟨false, [], 1073741824⟩) [[]] 0 4 = some 0 ∧
    GetDesiredIndentation (fun _ => ⟨false, [], 1073741824⟩) [[]] 0 4 ≠
      some ((1073741824 : Nat) * 4 + (([] : Str).length : Int)) ∧
    GetDesiredIndentation (fun _ => ⟨false, [], 1⟩) [[]] 0 (-4) =
      some 18446744073709551612 ∧
    GetDesiredIndentation (fun _ => ⟨false, [], 1⟩) [[]] 0 (-4) ≠
      some ((1 : Nat) * (-4) + (([] : Str).length : Int)) := by
  decide

/-- Claim C3, amended: on a fresh, empty last line with the cursor at column 0, when the
baseline `indentLevel * tabSize + len(indentPrefix)` of the oracle on the lines before is
below 2^31 and not negative, the result is the baseline; for a tab size that is not negative
the baseline is not negative. -/
theorem fresh_line_baseline (probe : List Str → SourceCompleteResult) (lines : List Str)
    (tab_size : Int) (hlast : lines.getLast? = some [])
    (hfit : (probe lines.dropLast).IndentLevel * tab_size +
      (probe lines.dropLast).IndentPrefix.length < 2 ^ 31) :
    ((0 : Int) ≤ (probe lines.dropLast).IndentLevel * tab_size +
        (probe lines.dropLast).IndentPrefix.length →
      GetDesiredIndentation probe lines 0 tab_size =
        some ((probe lines.dropLast).IndentLevel * tab_size +
          (probe lines.dropLast).IndentPrefix.length)) ∧
    (0 ≤ tab_size →
      (0 : Int) ≤ (probe lines.dropLast).IndentLevel * tab_size +
        (probe lines.dropLast).IndentPrefix.length) := by
  constructor
  · intro h0
    rw [GetDesiredIndentation_of_last probe lines [] 0 tab_size hlast]
    simp [braceRule, colonRule, cursorAfter, CalculateActualIndentation, hlast, find_last_of,
      baseline_value (probe lines.dropLast) tab_size h0 hfit]
  · intro h
    exact baseline_nonneg _ _ h

/-- The fresh line after `if x {`, with tab size 4: the result is 4. -/
theorem fresh_line_baseline_witness :
    GetDesiredIndentation (fun _ => ⟨false, [], 1⟩) ["if x \x7b".toList, []] 0 4 = some 4 :=
  ((fresh_line_baseline (fun _ => ⟨false, [], 1⟩) ["if x \x7b".toList, []] 4
    (by decide) (by decide)).1 (by decide)).trans (by decide)

/-- Claim C4: with the cursor inside the last line and behind a character that is neither a
closing brace nor a colon, the result is `LLDB_INVALID_OFFSET`; and whenever the cursor is
not at column 0 and both outdent rules fall through, the result is `LLDB_INVALID_OFFSET`. -/
theorem mid_line_sentinel (probe : List Str → SourceCompleteResult) (lines : List Str)
    (last_line : Str) (cursor_position tab_size : Int)
    (hlast : lines.getLast? = some last_line) :
    (1 ≤ cursor_position → cursor_position ≤ last_line.length →
      strAt last_line (cursor_position - 1) ≠ some '}' →
      strAt last_line (cursor_position - 1) ≠ some ':' →
      GetDesiredIndentation probe lines cursor_position tab_size = some LLDB_INVALID_OFFSET) ∧
    (∀ d1 d2 : Int, cursor_position ≠ 0 →
      braceRule lines last_line cursor_position tab_size d1 = some none →
      colonRule last_line cursor_position tab_size d2 = some none →
      GetDesiredIndentation probe lines cursor_position tab_size = some LLDB_INVALID_OFFSET) := by
  constructor
  · intro h1 h2 hb hc
    have h0 : cursor_position ≠ 0 := by omega
    obtain ⟨ch, hch⟩ : ∃ ch, strAt last_line (cursor_position - 1) = some ch := by
      obtain ⟨n, hn⟩ : ∃ n : Nat, cursor_position - 1 = n := ⟨(cursor_position - 1).toNat, by omega⟩
      have hlt : n < last_line.length := by omega
      rw [hn, strAt_natCast _ _ hlt]
      exact ⟨last_line[n], List.getElem?_eq_getElem hlt⟩
    have hne1 : ch ≠ '}' := by intro h; apply hb; rw [hch, h]
    have hne2 : ch ≠ ':' := by intro h; apply hc; rw [hch, h]
    rw [GetDesiredIndentation_of_last probe lines last_line cursor_position tab_size hlast,
      colonRule_no_trigger last_line cursor_position tab_size _ ch h0 hch hne2]
    simp [braceRule, cursorAfter, h0, hch, hne1]
  · intro d1 d2 h0 hb hc
    rw [GetDesiredIndentation_of_last probe lines last_line cursor_position tab_size hlast,
      braceRule_falls_through_indep lines last_line cursor_position tab_size d1 _ hb,
      colonRule_falls_through_indep last_line cursor_position tab_size d2 _ hc]
    simp [h0]

/-- The cursor behind the `a` of `ab`, and the cursor behind the colon of `foo x:`, where
neither rule fires: no indentation change. -/
theorem mid_line_sentinel_witness :
    GetDesiredIndentation (fun _ => ⟨false, [], 1⟩) ["if x \x7b".toList, "ab".toList] 1 4 =
        some LLDB_INVALID_OFFSET ∧
      GetDesiredIndentation (fun _ => ⟨false, [], 1⟩) ["if x \x7b".toList, "foo x:".toList] 6 4 =
        some LLDB_INVALID_OFFSET :=
  ⟨(mid_line_sentinel (fun _ => ⟨false, [], 1⟩) ["if x \x7b".toList, "ab".toList] "ab".toList 1 4
      (by decide)).1 (by decide) (by decide) (by decide) (by decide),
    (mid_line_sentinel (fun _ => ⟨false, [], 1⟩) ["if x \x7b".toList, "foo x:".toList]
      "foo x:".toList 6 4 (by decide)).2 4 4 (by decide) (by decide) (by decide)⟩

/-- The colon rule's trigger, from the position of the cursor. -/
theorem cursorAfter_colon (last_line : Str) (cursor_position : Int)
    (hcursor : cursor_position = 0 ∨ strAt last_line (cursor_position - 1) = some ':') :
    cursorAfter last_line cursor_position ':' = some true := by
  unfold cursorAfter
  rcases hcursor with h | h
  · simp [h]
  · by_cases h0 : cursor_position = 0
    · simp [h0]
    · simp [h0, h]

/-- A string that `GetIdentifier` accepts is not empty. -/
theorem GetIdentifier_ne_nil (s i rest ident : Str)
    (h : GetIdentifier s i = (true, rest, ident)) : s ≠ [] := by
  intro hs
  subst hs
  simp [GetIdentifier] at h

/-- The flag of `GetIdentifier` is false when the first character is neither a letter nor an
underscore, and on the empty string. -/
theorem GetIdentifier_fails (s i : Str)
    (h : ∀ ch, s.head? = some ch → (ch.isAlpha || ch == '_') = false) :
    GetIdentifier s i = (false, s, i) := by
  cases s with
  | nil => rfl
  | cons a t =>
    have ha := h a rfl
    simp only [GetIdentifier, ha]
    rfl

/-- The colon rule, once the text in front of the last colon starts with an identifier. -/
theorem colonRule_of_identifier (last_line : Str) (cursor_position tab_size d : Int)
    (colon_pos : Nat) (rest ident : Str)
    (hcursor : cursor_position = 0 ∨ strAt last_line (cursor_position - 1) = some ':')
    (hcolon : find_last_of last_line ':' = some colon_pos)
    (hident : GetIdentifier (ltrim (last_line.take colon_pos)) [] = (true, rest, ident)) :
    colonRule last_line cursor_position tab_size d =
      (colonOutdent rest ident).bind fun outdent =>
        if outdent then some (some (unindent d tab_size)) else some none := by
  have hne := GetIdentifier_ne_nil _ _ _ _ hident
  simp [colonRule, cursorAfter_colon last_line cursor_position hcursor, hcolon, hident, hne]

/-- The colon rule falls through when the text in front of the last colon does not start
with an identifier. -/
theorem colonRule_no_identifier (last_line : Str) (cursor_position tab_size d : Int)
    (colon_pos : Nat)
    (hcursor : cursor_position = 0 ∨ strAt last_line (cursor_position - 1) = some ':')
    (hcolon : find_last_of last_line ':' = some colon_pos)
    (hnoident : ∀ ch, (ltrim (last_line.take colon_pos)).head? = some ch →
      (ch.isAlpha || ch == '_') = false) :
    colonRule last_line cursor_position tab_size d = some none := by
  have hfail := GetIdentifier_fails (ltrim (last_line.take colon_pos)) [] hnoident
  simp only [colonRule, cursorAfter_colon last_line cursor_position hcursor, hcolon,
    Option.some_bind, if_true, hfail]
  split <;> rfl

/-- The character in front of the cursor can be read when it is a colon. -/
theorem read_of_colon (last_line : Str) (cursor_position : Int)
    (hcursor : cursor_position = 0 ∨ strAt last_line (cursor_position - 1) = some ':') :
    cursor_position = 0 ∨ ∃ ch, strAt last_line (cursor_position - 1) = some ch := by
  rcases hcursor with h | h
  · exact Or.inl h
  · exact Or.inr ⟨':', h⟩

/-- The result of `GetDesiredIndentation` when the brace rule falls through and the text in
front of the last colon starts with an identifier. -/
theorem GetDesiredIndentation_of_identifier (probe : List Str → SourceCompleteResult)
    (lines : List Str) (last_line : Str) (cursor_position tab_size : Int)
    (colon_pos : Nat) (rest ident : Str)
    (hlast : lines.getLast? = some last_line)
    (hnobrace : ¬ ((cursor_position = 0 ∨ strAt last_line (cursor_position - 1) = some '}') ∧
      (last_line.dropWhile (fun ch => ch == ' ')).head? = some '}'))
    (hcursor : cursor_position = 0 ∨ strAt last_line (cursor_position - 1) = some ':')
    (hcolon : find_last_of last_line ':' = some colon_pos)
    (hident : GetIdentifier (ltrim (last_line.take colon_pos)) [] = (true, rest, ident)) :
    GetDesiredIndentation probe lines cursor_position tab_size =
      match colonOutdent rest ident with
      | none => none
      | some true =>
        some (toUInt64 (unindent (desiredIndent (probe lines.dropLast) tab_size) tab_size))
      | some false =>
        if cursor_position = 0 then
          some (toUInt64 (desiredIndent (probe lines.dropLast) tab_size))
        else some LLDB_INVALID_OFFSET := by
  rw [GetDesiredIndentation_of_last probe lines last_line cursor_position tab_size hlast,
    braceRule_falls_through lines last_line cursor_position tab_size _ hlast
      (read_of_colon last_line cursor_position hcursor) hnobrace,
    colonRule_of_identifier last_line cursor_position tab_size _ colon_pos rest ident
      hcursor hcolon hident]
  cases colonOutdent rest ident with
  | none => rfl
  | some b => cases b <;> simp

/-- The result of `GetDesiredIndentation` when the brace rule falls through and the text in
front of the last colon does not start with an identifier. -/
theorem GetDesiredIndentation_no_identifier (probe : List Str → SourceCompleteResult)
    (lines : List Str) (last_line : Str) (cursor_position tab_size : Int) (colon_pos : Nat)
    (hlast : lines.getLast? = some last_line)
    (hnobrace : ¬ ((cursor_position = 0 ∨ strAt last_line (cursor_position - 1) = some '}') ∧
      (last_line.dropWhile (fun ch => ch == ' ')).head? = some '}'))
    (hcursor : cursor_position = 0 ∨ strAt last_line (cursor_position - 1) = some ':')
    (hcolon : find_last_of last_line ':' = some colon_pos)
    (hnoident : ∀ ch, (ltrim (last_line.take colon_pos)).head? = some ch →
      (ch.isAlpha || ch == '_') = false) :
    GetDesiredIndentation probe lines cursor_position tab_size =
      if cursor_position = 0 then
        some (toUInt64 (desiredIndent (probe lines.dropLast) tab_size))
      else some LLDB_INVALID_OFFSET := by
  rw [GetDesiredIndentation_of_last probe lines last_line cursor_position tab_size hlast,
    braceRule_falls_through lines last_line cursor_position tab_size _ hlast
      (read_of_colon last_line cursor_position hcursor) hnobrace,
    colonRule_no_identifier last_line cursor_position tab_size _ colon_pos hcursor hcolon
      hnoident]

/-- Trimming on the right keeps a string that starts with a character that is not a space
non-empty. -/
theorem rtrim_ltrim_ne_nil (s : Str) (h : ltrim s ≠ []) : rtrim (ltrim s) ≠ [] := by
  unfold rtrim
  intro hnil
  have hrev : (ltrim s).reverse.dropWhile isTrimChar = [] := by
    simpa using hnil
  rw [List.dropWhile_eq_nil_iff] at hrev
  have hhead : ∀ hne : ltrim s ≠ [], isTrimChar ((ltrim s).head hne) = false := by
    intro hne
    have := List.head_dropWhile_not isTrimChar s hne
    simpa [ltrim] using this
  have hmem : (ltrim s).head h ∈ (ltrim s).reverse := by
    simp [List.head_mem]
  have := hrev _ hmem
  rw [hhead h] at this
  cases this

/-- On a non-empty string the parenthesis test is defined, and it holds exactly when the
string begins with `(` and ends with `)`. -/
theorem wrappedInParens_of_ne_nil (l : Str) (h : l ≠ []) :
    wrappedInParens l = some (decide (l.head? = some '(' ∧ l.getLast? = some ')')) := by
  cases l with
  | nil => exact absurd rfl h
  | cons a t =>
    by_cases ha : a = '('
    · simp [wrappedInParens, ha, List.getLast?_eq_getLast, beq_eq_decide]
    · simp [wrappedInParens, ha]

/-- The position `find_last_of` returns holds the character searched for. -/
theorem find_last_of_getElem (s : Str) (c : Char) (p : Nat)
    (h : find_last_of s c = some p) : s[p]? = some c := by
  induction s generalizing p with
  | nil => simp [find_last_of] at h
  | cons a t ih =>
    unfold find_last_of at h
    cases hq : find_last_of t c with
    | some q =>
      rw [hq] at h
      simp only [Option.some.injEq] at h
      subst h
      simpa using ih q hq
    | none =>
      rw [hq] at h
      by_cases hac : a = c
      · subst hac
        simp at h
        subst h
        simp
      · simp [hac] at h

/-- When the first character of a line that is not a space is a closing brace, the text in
front of any colon of the line starts, once trimmed, with that brace. -/
theorem ltrim_take_head (s : Str) (p : Nat)
    (hbrace : (s.dropWhile (fun ch => ch == ' ')).head? = some '}')
    (hp : s[p]? = some ':') : (ltrim (s.take p)).head? = some '}' := by
  induction s generalizing p with
  | nil => simp at hp
  | cons a t ih =>
    cases p with
    | zero =>
      simp only [List.getElem?_cons_zero, Option.some.injEq] at hp
      subst hp
      simp [List.dropWhile_cons] at hbrace
    | succ q =>
      simp only [List.getElem?_cons_succ] at hp
      by_cases ha : a = ' '
      · subst ha
        have hb : (t.dropWhile (fun ch => ch == ' ')).head? = some '}' := by
          simpa [List.dropWhile_cons] using hbrace
        have := ih q hb hp
        simpa [ltrim, List.dropWhile_cons, isTrimChar] using this
      · have hb : a = '}' := by
          simpa [List.dropWhile_cons, ha] using hbrace
        subst hb
        simp [ltrim, List.dropWhile_cons, isTrimChar]

/-- Claim C6, as stated, fails on the line `1:`: the text in front of the colon does not
start with an identifier, the brace rule does not apply, the cursor is at column 0, and the
result is the baseline 4, not the outdent 0. Where the 32-bit arithmetic wraps, with indent
level 2^30 and tab size 4, the result is 0, neither the claimed outdent 4294967292 nor the
baseline 4294967296. -/
theorem no_identifier_counterexample :
    (["if x \x7b".toList, "1:".toList] : List Str).getLast? = some "1:".toList ∧
    ¬ (((0 : Int) = 0 ∨ strAt "1:".toList (0 - 1) = some '}') ∧
      ("1:".toList.dropWhile (fun ch => ch == ' ')).head? = some '}') ∧
    ((0 : Int) = 0 ∨ strAt "1:".toList (0 - 1) = some ':') ∧
    find_last_of "1:".toList ':' = some 1 ∧
    (ltrim ("1:".toList.take 1)).head? = some '1' ∧
    (('1').isAlpha || '1' == '_') = false ∧
    GetIdentifier (ltrim ("1:".toList.take 1)) [] = (false, "1".toList, []) ∧
    GetDesiredIndentation (fun _ => ⟨false, [], 1⟩) ["if x \x7b".toList, "1:".toList] 0 4 =
      some 4 ∧
    GetDesiredIndentation (fun _ => ⟨false, [], 1⟩) ["if x \x7b".toList, "1:".toList] 0 4 ≠
      some (max 0 ((1 : Nat) * 4 + (([] : Str).length : Int) - 4)) ∧
    GetDesiredIndentation (fun _ => ⟨false, [], 1073741824⟩) ["1:".toList] 0 4 = some 0 ∧
    (0 : Int) ≠ max 0 ((1073741824 : Nat) * 4 + (([] : Str).length : Int) - 4) ∧
    (0 : Int) ≠ (1073741824 : Nat) * 4 + (([] : Str).length : Int) := by
  decide

/-- Claim C6, amended: when the tab size is not negative and the baseline is below 2^31, the
brace rule does not apply, the cursor is at column 0 or right behind a colon, and the text
in front of the last colon does not start, once trimmed, with a letter or an underscore, the
colon rule does not outdent: the result is the baseline at column 0 and
`LLDB_INVALID_OFFSET` behind the colon. -/
theorem no_identifier_no_outdent (probe : List Str → SourceCompleteResult) (lines : List Str)
    (last_line : Str) (cursor_position tab_size : Int) (colon_pos : Nat)
    (hlast : lines.getLast? = some last_line)
    (htab : 0 ≤ tab_size)
    (hfit : (probe lines.dropLast).IndentLevel * tab_size +
      (probe lines.dropLast).IndentPrefix.length < 2 ^ 31)
    (hnobrace : ¬ ((cursor_position = 0 ∨ strAt last_line (cursor_position - 1) = some '}') ∧
      (last_line.dropWhile (fun ch => ch == ' ')).head? = some '}'))
    (hcursor : cursor_position = 0 ∨ strAt last_line (cursor_position - 1) = some ':')
    (hcolon : find_last_of last_line ':' = some colon_pos)
    (hnoident : ∀ ch, (ltrim (last_line.take colon_pos)).head? = some ch →
      (ch.isAlpha || ch == '_') = false) :
    GetDesiredIndentation probe lines cursor_position tab_size =
      if cursor_position = 0 then
        some ((probe lines.dropLast).IndentLevel * tab_size +
          (probe lines.dropLast).IndentPrefix.length)
      else some LLDB_INVALID_OFFSET := by
  rw [GetDesiredIndentation_no_identifier probe lines last_line cursor_position tab_size
    colon_pos hlast hnobrace hcursor hcolon hnoident,
    baseline_value (probe lines.dropLast) tab_size
      (baseline_nonneg (probe lines.dropLast) tab_size htab) hfit]

/-- The line `1:` under one open block, tab size 4: the baseline 4 at column 0 and no change
behind the colon. -/
theorem no_identifier_no_outdent_witness :
    GetDesiredIndentation (fun _ => ⟨false, [], 1⟩) ["if x \x7b".toList, "1:".toList] 0 4 =
        some 4 ∧
      GetDesiredIndentation (fun _ => ⟨false, [], 1⟩) ["if x \x7b".toList, "1:".toList] 2 4 =
        some LLDB_INVALID_OFFSET :=
  ⟨(no_identifier_no_outdent (fun _ => ⟨false, [], 1⟩) ["if x \x7b".toList, "1:".toList]
      "1:".toList 0 4 1 (by decide) (by decide) (by decide) (by decide) (by decide)
      (by decide)
      (by intro ch h; simp [ltrim, isTrimChar] at h; subst h; decide)).trans (by decide),
    (no_identifier_no_outdent (fun _ => ⟨false, [], 1⟩) ["if x \x7b".toList, "1:".toList]
      "1:".toList 2 4 1 (by decide) (by decide) (by decide) (by decide) (by decide)
      (by decide)
      (by intro ch h; simp [ltrim, isTrimChar] at h; subst h; decide)).trans (by decide)⟩

/-- Claim C7, as stated, fails on the bare label `foo:`: the brace rule does not apply, the
text in front of the colon is the single identifier `foo`, and the result is the outdent 0
both at column 0, where the claim says the baseline 4, and behind the colon, where the claim
says `LLDB_INVALID_OFFSET`. Where the 32-bit arithmetic wraps, with indent level 3 and tab
size 2147483647, the result at column 0 is 0, neither the baseline 6442450941 nor the
outdent 4294967294 of the integers. -/
theorem bare_label_counterexample :
    (["if x \x7b".toList, "foo:".toList] : List Str).getLast? = some "foo:".toList ∧
    ("foo:".toList.dropWhile (fun ch => ch == ' ')).head? ≠ some '}' ∧
    find_last_of "foo:".toList ':' = some 3 ∧
    GetIdentifier (ltrim ("foo:".toList.take 3)) [] = (true, [], "foo".toList) ∧
    "foo".toList ≠ "case".toList ∧
    GetDesiredIndentation (fun _ => ⟨false, [], 1⟩) ["if x \x7b".toList, "foo:".toList] 0 4 =
      some 0 ∧
    GetDesiredIndentation (fun _ => ⟨false, [], 1⟩) ["if x \x7b".toList, "foo:".toList] 0 4 ≠
      some ((1 : Nat) * 4 + (([] : Str).length : Int)) ∧
    GetDesiredIndentation (fun _ => ⟨false, [], 1⟩) ["if x \x7b".toList, "foo:".toList] 4 4 =
      some 0 ∧
    GetDesiredIndentation (fun _ => ⟨false, [], 1⟩) ["if x \x7b".toList, "foo:".toList] 4 4 ≠
      some LLDB_INVALID_OFFSET ∧
    GetDesiredIndentation (fun _ => ⟨false, [], 3⟩) ["foo:".toList] 0 2147483647 = some 0 ∧
    (0 : Int) ≠ (3 : Nat) * 2147483647 + (([] : Str).length : Int) ∧
    (0 : Int) ≠ max 0 ((3 : Nat) * 2147483647 + (([] : Str).length : Int) - 2147483647) := by
  decide

/-- Claim C7, amended: when the tab size is a non-negative `int` and the baseline is below
2^31, the brace rule does not apply, the cursor is at column 0 or right behind a colon, and
the text in front of the last colon is, apart from surrounding spaces, a single identifier
other than `case`, the colon rule outdents: the result is the baseline less one tab stop,
clamped at 0. -/
theorem bare_label_outdent (probe : List Str → SourceCompleteResult) (lines : List Str)
    (last_line : Str) (cursor_position tab_size : Int) (colon_pos : Nat) (rest ident : Str)
    (hlast : lines.getLast? = some last_line)
    (htab : 0 ≤ tab_size) (htabmax : tab_size < 2 ^ 31)
    (hfit : (probe lines.dropLast).IndentLevel * tab_size +
      (probe lines.dropLast).IndentPrefix.length < 2 ^ 31)
    (hnobrace : ¬ ((cursor_position = 0 ∨ strAt last_line (cursor_position - 1) = some '}') ∧
      (last_line.dropWhile (fun ch => ch == ' ')).head? = some '}'))
    (hcursor : cursor_position = 0 ∨ strAt last_line (cursor_position - 1) = some ':')
    (hcolon : find_last_of last_line ':' = some colon_pos)
    (hident : GetIdentifier (ltrim (last_line.take colon_pos)) [] = (true, rest, ident))
    (hrest : ltrim rest = [])
    (hcase : ident ≠ "case".toList) :
    GetDesiredIndentation probe lines cursor_position tab_size =
      some (max 0 ((probe lines.dropLast).IndentLevel * tab_size +
        (probe lines.dropLast).IndentPrefix.length - tab_size)) := by
  have hb : (ident != "case".toList) = true := bne_iff_ne.mpr hcase
  have hout : colonOutdent rest ident = some true := by
    unfold colonOutdent
    rw [hrest, hb]
    rfl
  rw [GetDesiredIndentation_of_identifier probe lines last_line cursor_position tab_size
    colon_pos rest ident hlast hnobrace hcursor hcolon hident, hout]
  simp only [outdent_value (probe lines.dropLast) tab_size htab htabmax hfit]

/-- The label `default:` typed under two open blocks, cursor behind the colon, tab size 4:
the result is 4. -/
theorem bare_label_outdent_witness :
    GetDesiredIndentation (fun _ => ⟨false, [], 2⟩) ["switch x \x7b".toList, "default:".toList]
      8 4 = some 4 :=
  (bare_label_outdent (fun _ => ⟨false, [], 2⟩) ["switch x \x7b".toList, "default:".toList]
    "default:".toList 8 4 7 [] "default".toList (by decide) (by decide) (by decide)
    (by decide) (by decide) (by decide) (by decide) (by decide) (by decide)
    (by decide)).trans (by decide)

/-- Claim C8, as stated, fails on the line `foo :`: the text in front of the colon is the
identifier `foo` followed by the non-empty text of one space, which trimmed on both sides
is not wrapped in parentheses, yet the result at column 0 is the outdent 0, not the baseline
4. It also fails where the 32-bit arithmetic wraps: on `foo (x):` with indent level 3 and
tab size 2147483647 the result is 0, not the claimed 4294967294. -/
theorem paren_clause_counterexample :
    (["if x \x7b".toList, "foo :".toList] : List Str).getLast? = some "foo :".toList ∧
    ¬ (((0 : Int) = 0 ∨ strAt "foo :".toList (0 - 1) = some '}') ∧
      ("foo :".toList.dropWhile (fun ch => ch == ' ')).head? = some '}') ∧
    ((0 : Int) = 0 ∨ strAt "foo :".toList (0 - 1) = some ':') ∧
    find_last_of "foo :".toList ':' = some 4 ∧
    GetIdentifier (ltrim ("foo :".toList.take 4)) [] = (true, " ".toList, "foo".toList) ∧
    "foo".toList ≠ "case".toList ∧
    " ".toList ≠ [] ∧
    ¬ ((rtrim (ltrim " ".toList)).head? = some '(' ∧
      (rtrim (ltrim " ".toList)).getLast? = some ')') ∧
    GetDesiredIndentation (fun _ => ⟨false, [], 1⟩) ["if x \x7b".toList, "foo :".toList] 0 4 =
      some 0 ∧
    GetDesiredIndentation (fun _ => ⟨false, [], 1⟩) ["if x \x7b".toList, "foo :".toList] 0 4 ≠
      some ((1 : Nat) * 4 + (([] : Str).length : Int)) ∧
    GetIdentifier (ltrim ("foo (x):".toList.take 7)) [] =
      (true, " (x)".toList, "foo".toList) ∧
    GetDesiredIndentation (fun _ => ⟨false, [], 3⟩) ["foo (x):".toList] 0 2147483647 =
      some 0 ∧
    GetDesiredIndentation (fun _ => ⟨false, [], 3⟩) ["foo (x):".toList] 0 2147483647 ≠
      some (max 0 ((3 : Nat) * 2147483647 + (([] : Str).length : Int) - 2147483647)) := by
  decide

/-- Claim C8, amended: when the tab size is a non-negative `int` and the baseline is below
2^31, the brace rule does not apply, the cursor is at column 0 or right behind a colon, and
the text in front of the last colon is an identifier other than `case` followed by text that
is not empty once trimmed on the left, the result is the baseline less one tab stop, clamped
at 0, when that text, trimmed on both sides, begins with `(` and ends with `)`; otherwise
the colon rule does not outdent, and the result is the baseline at column 0 and
`LLDB_INVALID_OFFSET` behind the colon. -/
theorem paren_clause_outdent (probe : List Str → SourceCompleteResult) (lines : List Str)
    (last_line : Str) (cursor_position tab_size : Int) (colon_pos : Nat) (rest ident : Str)
    (hlast : lines.getLast? = some last_line)
    (htab : 0 ≤ tab_size) (htabmax : tab_size < 2 ^ 31)
    (hfit : (probe lines.dropLast).IndentLevel * tab_size +
      (probe lines.dropLast).IndentPrefix.length < 2 ^ 31)
    (hnobrace : ¬ ((cursor_position = 0 ∨ strAt last_line (cursor_position - 1) = some '}') ∧
      (last_line.dropWhile (fun ch => ch == ' ')).head? = some '}'))
    (hcursor : cursor_position = 0 ∨ strAt last_line (cursor_position - 1) = some ':')
    (hcolon : find_last_of last_line ':' = some colon_pos)
    (hident : GetIdentifier (ltrim (last_line.take colon_pos)) [] = (true, rest, ident))
    (hcase : ident ≠ "case".toList)
    (hrest : ltrim rest ≠ []) :
    (((rtrim (ltrim rest)).head? = some '(' ∧ (rtrim (ltrim rest)).getLast? = some ')') →
      GetDesiredIndentation probe lines cursor_position tab_size =
        some (max 0 ((probe lines.dropLast).IndentLevel * tab_size +
          (probe lines.dropLast).IndentPrefix.length - tab_size))) ∧
    (¬ ((rtrim (ltrim rest)).head? = some '(' ∧ (rtrim (ltrim rest)).getLast? = some ')') →
      GetDesiredIndentation probe lines cursor_position tab_size =
        if cursor_position = 0 then
          some ((probe lines.dropLast).IndentLevel * tab_size +
            (probe lines.dropLast).IndentPrefix.length)
        else some LLDB_INVALID_OFFSET) := by
  have hout : colonOutdent rest ident =
      some (decide ((rtrim (ltrim rest)).head? = some '(' ∧
        (rtrim (ltrim rest)).getLast? = some ')')) := by
    have hcase2 : ident ≠ ['c', 'a', 's', 'e'] := hcase
    rw [← wrappedInParens_of_ne_nil _ (rtrim_ltrim_ne_nil rest hrest)]
    simp [colonOutdent, hrest, hcase2]
  rw [GetDesiredIndentation_of_identifier probe lines last_line cursor_position tab_size
    colon_pos rest ident hlast hnobrace hcursor hcolon hident, hout,
    outdent_value (probe lines.dropLast) tab_size htab htabmax hfit,
    baseline_value (probe lines.dropLast) tab_size
      (baseline_nonneg (probe lines.dropLast) tab_size htab) hfit]
  constructor
  · intro hw
    simp [hw]
  · intro hw
    simp [hw]

/-- The clause `foo (x) :` is outdented to 4 under two open blocks, and `foo x:` keeps the
baseline 8 at column 0; tab size 4. -/
theorem paren_clause_outdent_witness :
    GetDesiredIndentation (fun _ => ⟨false, [], 2⟩) ["switch x \x7b".toList, "foo (x) :".toList]
        9 4 = some 4 ∧
      GetDesiredIndentation (fun _ => ⟨false, [], 2⟩) ["switch x \x7b".toList, "foo x:".toList]
        0 4 = some 8 :=
  ⟨((paren_clause_outdent (fun _ => ⟨false, [], 2⟩) ["switch x \x7b".toList, "foo (x) :".toList]
      "foo (x) :".toList 9 4 8 " (x) ".toList "foo".toList (by decide) (by decide) (by decide)
      (by decide) (by decide) (by decide) (by decide) (by decide) (by decide)
      (by decide)).1 (by decide)).trans (by decide),
    ((paren_clause_outdent (fun _ => ⟨false, [], 2⟩) ["switch x \x7b".toList, "foo x:".toList]
      "foo x:".toList 0 4 5 " x".toList "foo".toList (by decide) (by decide) (by decide)
      (by decide) (by decide) (by decide) (by decide) (by decide) (by decide)
      (by decide)).2 (by decide)).trans (by decide)⟩

/-- Claim C9, as stated, fails on the line `}:` with the cursor behind the colon: the first
character that is not a space is the brace, the line has a colon, the colon rule's trigger
holds, and the result is `LLDB_INVALID_OFFSET`, not the outdent 0. It also fails where the
32-bit arithmetic wraps: at column 0 with indent level 3 and tab size 2147483647 the result
is 0, not the claimed 4294967294. -/
theorem brace_precedence_counterexample :
    (["if x \x7b".toList, "\x7d:".toList] : List Str).getLast? = some "\x7d:".toList ∧
    ("\x7d:".toList.dropWhile (fun ch => ch == ' ')).head? = some '}' ∧
    find_last_of "\x7d:".toList ':' = some 1 ∧
    strAt "\x7d:".toList (2 - 1) = some ':' ∧
    GetDesiredIndentation (fun _ => ⟨false, [], 1⟩) ["if x \x7b".toList, "\x7d:".toList] 2 4 =
      some LLDB_INVALID_OFFSET ∧
    GetDesiredIndentation (fun _ => ⟨false, [], 1⟩) ["if x \x7b".toList, "\x7d:".toList] 2 4 ≠
      some (max 0 ((1 : Nat) * 4 + (([] : Str).length : Int) - 4)) ∧
    GetDesiredIndentation (fun _ => ⟨false, [], 3⟩) ["\x7d:".toList] 0 2147483647 = some 0 ∧
    GetDesiredIndentation (fun _ => ⟨false, [], 3⟩) ["\x7d:".toList] 0 2147483647 ≠
      some (max 0 ((3 : Nat) * 2147483647 + (([] : Str).length : Int) - 2147483647)) := by
  decide

/-- Claim C9, amended: on a last line whose first character that is not a space is a closing
brace and which contains a colon, the brace rule decides the result when the cursor is at
column 0 or right behind a closing brace, and for a tab size that is a non-negative `int`
and a baseline below 2^31 that result is the baseline less one tab stop clamped at 0; when
the cursor is right behind a colon the result is `LLDB_INVALID_OFFSET`; and at no cursor
position does the colon rule return a result for such a line. -/
theorem brace_precedence (probe : List Str → SourceCompleteResult) (lines : List Str)
    (last_line : Str) (cursor_position tab_size : Int) (colon_pos : Nat)
    (hlast : lines.getLast? = some last_line)
    (hbrace : (last_line.dropWhile (fun ch => ch == ' ')).head? = some '}')
    (hcolon : find_last_of last_line ':' = some colon_pos) :
    ((cursor_position = 0 ∨ strAt last_line (cursor_position - 1) = some '}') →
      braceRule lines last_line cursor_position tab_size
          (desiredIndent (probe lines.dropLast) tab_size) =
        some (some (unindent (desiredIndent (probe lines.dropLast) tab_size) tab_size)) ∧
      (0 ≤ tab_size → tab_size < 2 ^ 31 →
        (probe lines.dropLast).IndentLevel * tab_size +
          (probe lines.dropLast).IndentPrefix.length < 2 ^ 31 →
        GetDesiredIndentation probe lines cursor_position tab_size =
          some (max 0 ((probe lines.dropLast).IndentLevel * tab_size +
            (probe lines.dropLast).IndentPrefix.length - tab_size)))) ∧
    (strAt last_line (cursor_position - 1) = some ':' →
      GetDesiredIndentation probe lines cursor_position tab_size = some LLDB_INVALID_OFFSET) ∧
    (∀ d r : Int, colonRule last_line cursor_position tab_size d ≠ some (some r)) := by
  have hnoident : ∀ ch, (ltrim (last_line.take colon_pos)).head? = some ch →
      (ch.isAlpha || ch == '_') = false := by
    intro ch hch
    rw [ltrim_take_head last_line colon_pos hbrace
      (find_last_of_getElem last_line ':' colon_pos hcolon)] at hch
    simp only [Option.some.injEq] at hch
    subst hch
    decide
  refine ⟨?_, ?_, ?_⟩
  · intro hcursor
    refine ⟨braceRule_applies lines last_line cursor_position tab_size _ hlast hcursor hbrace,
      ?_⟩
    intro htab htabmax hfit
    rw [GetDesiredIndentation_of_last probe lines last_line cursor_position tab_size hlast,
      braceRule_applies lines last_line cursor_position tab_size _ hlast hcursor hbrace]
    simp only [outdent_value (probe lines.dropLast) tab_size htab htabmax hfit]
  · intro hcursor
    have h0 : cursor_position ≠ 0 := by
      intro h
      subst h
      simp [strAt] at hcursor
    have hnobrace : ¬ ((cursor_position = 0 ∨
        strAt last_line (cursor_position - 1) = some '}') ∧
        (last_line.dropWhile (fun ch => ch == ' ')).head? = some '}') := by
      rintro ⟨h | h, -⟩
      · exact h0 h
      · rw [hcursor] at h
        exact absurd h (by decide)
    rw [GetDesiredIndentation_no_identifier probe lines last_line cursor_position tab_size
      colon_pos hlast hnobrace (Or.inr hcursor) hcolon hnoident]
    simp [h0]
  · intro d r
    have hfail := GetIdentifier_fails (ltrim (last_line.take colon_pos)) [] hnoident
    unfold colonRule
    cases hc : cursorAfter last_line cursor_position ':' with
    | none => simp
    | some b =>
      cases b with
      | false => simp
      | true =>
        simp only [Option.some_bind, if_true, hcolon, hfail]
        split <;> simp

/-- The line `} else:` under one open block with a two-space indent prefix, tab size 4: the
outdent 2 at column 0 and behind the brace, no change behind the colon. -/
theorem brace_precedence_witness :
    GetDesiredIndentation (fun _ => ⟨false, "  ".toList, 1⟩)
        ["  if x \x7b".toList, "\x7d else:".toList] 0 4 = some 2 ∧
      GetDesiredIndentation (fun _ => ⟨false, "  ".toList, 1⟩)
        ["  if x \x7b".toList, "\x7d else:".toList] 1 4 = some 2 ∧
      GetDesiredIndentation (fun _ => ⟨false, "  ".toList, 1⟩)
        ["  if x \x7b".toList, "\x7d else:".toList] 7 4 = some LLDB_INVALID_OFFSET :=
  ⟨(((brace_precedence (fun _ => ⟨false, "  ".toList, 1⟩)
      ["  if x \x7b".toList, "\x7d else:".toList]
      "\x7d else:".toList 0 4 6 (by decide) (by decide) (by decide)).1 (by decide)).2
      (by decide) (by decide) (by decide)).trans (by decide),
    (((brace_precedence (fun _ => ⟨false, "  ".toList, 1⟩)
      ["  if x \x7b".toList, "\x7d else:".toList]
      "\x7d else:".toList 1 4 6 (by decide) (by decide) (by decide)).1 (by decide)).2
      (by decide) (by decide) (by decide)).trans (by decide),
    (brace_precedence (fun _ => ⟨false, "  ".toList, 1⟩)
      ["  if x \x7b".toList, "\x7d else:".toList]
      "\x7d else:".toList 7 4 6 (by decide) (by decide) (by decide)).2.1 (by decide)⟩

/-! ## Properties of `CompleteCode` -/

/-- Claim C10: when the AST context and the completion module are there and the root the
oracle reports after `populate` is not empty, `CompleteCode` adds one completion to the
request and nothing else: the cursor prefix followed by the root, with the empty description
and the mode `Partial`, whatever the state of the oracle. -/
theorem unique_root (scratch : ScratchTypeSystem) (state state1 : REPLState)
    (current_code : Str) (request : CompletionRequest) (repl_module : ReplModule)
    (hmodule : acquireModule scratch state = some (some (state1, repl_module)))
    (hroot : (repl_module current_code).Root ≠ []) :
    (CompleteCode scratch state current_code request).map (fun r => r.2) =
      some { cursorArgument := request.cursorArgument,
             completions := request.completions ++
               [{ completion := request.cursorArgument ++ (repl_module current_code).Root,
                  description := some [],
                  mode := some CompletionMode.Partial }] } := by
  have hne : (repl_module current_code).Root.isEmpty = false := by
    cases h : (repl_module current_code).Root with
    | nil => exact absurd h hroot
    | cons a t => rfl
  simp [CompleteCode, hmodule, addCompletions, hne, CompletionRequest.AddCompletion]

/-- With the root `nt` for the token `pri`, the single completion `print` is added, here in
the states `Invalid` and `CompletedRoot` of the oracle. -/
theorem unique_root_witness :
    (CompleteCode (ScratchTypeSystem.swift (some ⟨none, some (fun _ =>
          ⟨"nt".toList, CompletionState.Invalid, ["x".toList], "y".toList⟩)⟩))
        ⟨none, false⟩ "pri".toList ⟨"pri".toList, []⟩).map (fun r => r.2) =
      some ⟨"pri".toList, [⟨"print".toList, some [], some CompletionMode.Partial⟩]⟩ ∧
    (CompleteCode (ScratchTypeSystem.swift (some ⟨none, some (fun _ =>
          ⟨"nt".toList, CompletionState.CompletedRoot, ["x".toList], "y".toList⟩)⟩))
        ⟨none, false⟩ "pri".toList ⟨"pri".toList, []⟩).map (fun r => r.2) =
      some ⟨"pri".toList, [⟨"print".toList, some [], some CompletionMode.Partial⟩]⟩ :=
  ⟨unique_root (ScratchTypeSystem.swift (some ⟨none, some (fun _ =>
        ⟨"nt".toList, CompletionState.Invalid, ["x".toList], "y".toList⟩)⟩))
      ⟨none, false⟩
      ⟨some ⟨none, some (fun _ =>
        ⟨"nt".toList, CompletionState.Invalid, ["x".toList], "y".toList⟩)⟩, true⟩
      "pri".toList ⟨"pri".toList, []⟩
      (fun _ => ⟨"nt".toList, CompletionState.Invalid, ["x".toList], "y".toList⟩)
      rfl (by decide),
    unique_root (ScratchTypeSystem.swift (some ⟨none, some (fun _ =>
        ⟨"nt".toList, CompletionState.CompletedRoot, ["x".toList], "y".toList⟩)⟩))
      ⟨none, false⟩
      ⟨some ⟨none, some (fun _ =>
        ⟨"nt".toList, CompletionState.CompletedRoot, ["x".toList], "y".toList⟩)⟩, true⟩
      "pri".toList ⟨"pri".toList, []⟩
      (fun _ => ⟨"nt".toList, CompletionState.CompletedRoot, ["x".toList], "y".toList⟩)
      rfl (by decide)⟩

/-- The loop over the completion list adds, in order, one hint for each candidate that is
not empty: the text is `pfx`, the description the candidate. -/
theorem foldl_AddCompletion (pfx : Str) (l : List Str) (request : CompletionRequest) :
    l.foldl
        (fun request llvm_match =>
          if !llvm_match.isEmpty then request.AddCompletion pfx (some llvm_match) none
          else request)
        request =
      { cursorArgument := request.cursorArgument,
        completions := request.completions ++
          (l.filter (fun m => !m.isEmpty)).map
            (fun m => { completion := pfx, description := some m, mode := none }) } := by
  induction l generalizing request with
  | nil => simp
  | cons m t ih =>
    rw [List.foldl_cons, ih]
    cases m with
    | nil => simp
    | cons a u => simp [CompletionRequest.AddCompletion]

/-- Claim C11, as stated, fails when the oracle offers an empty candidate: with the empty
root, the state `CompletedRoot` and the two candidates `""` and `abs(x)`, one completion is
added, not two. -/
theorem completed_root_counterexample :
    acquireModule (ScratchTypeSystem.swift (some ⟨none, some (fun _ =>
        ⟨[], CompletionState.CompletedRoot, ["".toList, "abs(x)".toList], []⟩)⟩))
      ⟨none, false⟩ ≠ none ∧
    (CompleteCode (ScratchTypeSystem.swift (some ⟨none, some (fun _ =>
          ⟨[], CompletionState.CompletedRoot, ["".toList, "abs(x)".toList], []⟩)⟩))
        ⟨none, false⟩ "ab".toList ⟨"ab".toList, []⟩).map (fun r => r.2.completions) =
      some [⟨"ab".toList, some "abs(x)".toList, none⟩] ∧
    (CompleteCode (ScratchTypeSystem.swift (some ⟨none, some (fun _ =>
          ⟨[], CompletionState.CompletedRoot, ["".toList, "abs(x)".toList], []⟩)⟩))
        ⟨none, false⟩ "ab".toList ⟨"ab".toList, []⟩).map (fun r => r.2.completions.length) ≠
      some (["".toList, "abs(x)".toList] : List Str).length := by
  refine ⟨?_, ?_, ?_⟩
  · simp [acquireModule]
  · decide
  · decide

/-- Claim C11, amended: when the root is empty and the state is `CompletedRoot`, the
completions added to the request are, in list order, one for each candidate of the oracle
that is not empty, with the cursor prefix as text and the candidate as description; their
number is the number of such candidates. -/
theorem completed_root_hints (scratch : ScratchTypeSystem) (state state1 : REPLState)
    (current_code : Str) (request : CompletionRequest) (repl_module : ReplModule)
    (hmodule : acquireModule scratch state = some (some (state1, repl_module)))
    (hroot : (repl_module current_code).Root = [])
    (hstate : (repl_module current_code).State = CompletionState.CompletedRoot) :
    (CompleteCode scratch state current_code request).map (fun r => r.2) =
        some { cursorArgument := request.cursorArgument,
               completions := request.completions ++
                 ((repl_module current_code).CompletionList.filter (fun m => !m.isEmpty)).map
                   (fun m => { completion := request.cursorArgument,
                               description := some m,
                               mode := none }) } ∧
      (CompleteCode scratch state current_code request).map
          (fun r => r.2.completions.length) =
        some (request.completions.length +
          ((repl_module current_code).CompletionList.filter (fun m => !m.isEmpty)).length) := by
  have hrun : CompleteCode scratch state current_code request =
      some (state1, CompletionRequest.mk request.cursorArgument
        (request.completions ++
          ((repl_module current_code).CompletionList.filter (fun m => !m.isEmpty)).map
            (fun m => Completion.mk request.cursorArgument (some m) none))) := by
    simp only [CompleteCode, hmodule, addCompletions, hroot, hstate, List.isEmpty_nil,
      Bool.not_true, Bool.false_eq_true, if_false, Option.map_some']
    rw [foldl_AddCompletion]
  rw [hrun]
  simp

/-- With the candidates `abs(x)`, the empty one and `add(y)` for the token `a`, the two hints
`abs(x)` and `add(y)` are added behind the completion the request holds. -/
theorem completed_root_hints_witness :
    (CompleteCode (ScratchTypeSystem.swift (some ⟨none, some (fun _ =>
          ⟨[], CompletionState.CompletedRoot,
            ["abs(x)".toList, [], "add(y)".toList], []⟩)⟩))
        ⟨none, false⟩ "a".toList
        ⟨"a".toList, [⟨"b".toList, none, none⟩]⟩).map (fun r => r.2) =
      some ⟨"a".toList, [⟨"b".toList, none, none⟩, ⟨"a".toList, some "abs(x)".toList, none⟩,
        ⟨"a".toList, some "add(y)".toList, none⟩]⟩ :=
  (completed_root_hints (ScratchTypeSystem.swift (some ⟨none, some (fun _ =>
        ⟨[], CompletionState.CompletedRoot,
          ["abs(x)".toList, [], "add(y)".toList], []⟩)⟩))
      ⟨none, false⟩
      ⟨some ⟨none, some (fun _ =>
        ⟨[], CompletionState.CompletedRoot,
          ["abs(x)".toList, [], "add(y)".toList], []⟩)⟩, true⟩
      "a".toList ⟨"a".toList, [⟨"b".toList, none, none⟩]⟩
      (fun _ => ⟨[], CompletionState.CompletedRoot,
          ["abs(x)".toList, [], "add(y)".toList], []⟩)
      rfl rfl rfl).1.trans (by decide)

/-- Claim C13, as stated, fails for a value passed with its expression variable `$R0`: the
format is the default one, the type is not an empty tuple and void results are notified, yet
`PrintOneVariable` returns false and dumps nothing. -/
theorem print_suppression_counterexample :
    PrintOneVariable ⟨false, true⟩ Format.eFormatDefault ⟨"$R0".toList, ⟨true, false, 0⟩⟩
        (some ⟨some ⟨"$R0".toList, ⟨true, false, 0⟩⟩, "$R0".toList, false⟩) = (false, none) ∧
    ¬ (Format.eFormatDefault = Format.eFormatVoid ∨
      ((⟨"$R0".toList, ⟨true, false, 0⟩⟩ : ValueObject).compilerType.IsSwift = true ∧
        (⟨"$R0".toList, ⟨true, false, 0⟩⟩ : ValueObject).compilerType.IsTuple = true ∧
        (⟨"$R0".toList, ⟨true, false, 0⟩⟩ : ValueObject).compilerType.NumFields = 0 ∧
        (⟨false, true⟩ : Debugger).NotifyVoid = false)) := by
  decide

/-- Claim C13, amended: when no expression variable is passed, or the one passed has a value
object of a Swift type and a name that does not start with `$`, the value is suppressed
(`PrintOneVariable` returns false and dumps nothing) exactly when the format is void, or the
type of the value is a Swift tuple without fields and the debugger does not notify void
results, and otherwise it is dumped and `PrintOneVariable` returns true; when the variable
passed has no value object, a name that starts with `$`, or a type that is not Swift,
`PrintOneVariable` returns false and dumps nothing. -/
theorem print_suppression (debugger : Debugger) (m_format : Format) (valobj_sp : ValueObject)
    (var : Option ExpressionVariable) :
    ((var = none ∨ ∃ x vo, var = some x ∧ x.valueObject = some vo ∧
        (AsCString x.Name "anonymous".toList).head? ≠ some '$' ∧
        vo.compilerType.IsSwift = true) →
      ((PrintOneVariable debugger m_format valobj_sp var = (false, none) ↔
          (m_format = Format.eFormatVoid ∨
            (valobj_sp.compilerType.IsSwift = true ∧ valobj_sp.compilerType.IsTuple = true ∧
              valobj_sp.compilerType.NumFields = 0 ∧ debugger.NotifyVoid = false))) ∧
        (¬ (m_format = Format.eFormatVoid ∨
            (valobj_sp.compilerType.IsSwift = true ∧ valobj_sp.compilerType.IsTuple = true ∧
              valobj_sp.compilerType.NumFields = 0 ∧ debugger.NotifyVoid = false)) →
          (PrintOneVariable debugger m_format valobj_sp var).1 = true ∧
            (PrintOneVariable debugger m_format valobj_sp var).2 ≠ none))) ∧
    ((∃ x, var = some x ∧ (x.valueObject = none ∨
        (AsCString x.Name "anonymous".toList).head? = some '$' ∨
        ∃ vo, x.valueObject = some vo ∧ vo.compilerType.IsSwift = false)) →
      PrintOneVariable debugger m_format valobj_sp var = (false, none)) := by
  obtain ⟨useColor, notifyVoid⟩ := debugger
  obtain ⟨name, ⟨isSwift, isTuple, numFields⟩⟩ := valobj_sp
  constructor
  · intro hvar
    rcases hvar with h | ⟨x, vo, hx, hvo, hname, hswift⟩
    · subst h
      by_cases hf : m_format = Format.eFormatVoid
      · subst hf
        simp [PrintOneVariable]
      · have hf2 : (m_format == Format.eFormatVoid) = false := by simpa using hf
        cases notifyVoid <;> cases isSwift <;> cases isTuple <;>
          by_cases hn : numFields = 0 <;>
          simp [PrintOneVariable, hf, hf2, hn]
    · subst hx
      have hname2 : ¬ (AsCString x.Name
          ['a', 'n', 'o', 'n', 'y', 'm', 'o', 'u', 's']).head? = some '$' := hname
      by_cases hf : m_format = Format.eFormatVoid
      · subst hf
        simp [PrintOneVariable, hvo, hname2, hswift]
      · have hf2 : (m_format == Format.eFormatVoid) = false := by simpa using hf
        cases notifyVoid <;> cases isSwift <;> cases isTuple <;>
          by_cases hn : numFields = 0 <;>
          simp [PrintOneVariable, hvo, hname2, hswift, hf, hf2, hn]
  · rintro ⟨x, hx, hcase⟩
    subst hx
    rcases hcase with h | h | ⟨vo, hvo, hswift⟩
    · simp [PrintOneVariable, h]
    · have h2 : (AsCString x.Name
          ['a', 'n', 'o', 'n', 'y', 'm', 'o', 'u', 's']).head? = some '$' := h
      cases hv : x.valueObject with
      | none => simp [PrintOneVariable, hv]
      | some vo => simp [PrintOneVariable, hv, h2]
    · simp [PrintOneVariable, hvo, hswift]

/-! ## Properties of the empty array buffer -/

/-- Claim C14: for every empty buffer handler and every index, `GetCount` and `GetCapacity`
are 0, `GetElementAtIndex` returns the null value, `IsValid` is true, and `GetElementType`
returns the element type the handler was built with. -/
theorem empty_buffer_handler (handler : SwiftArrayEmptyBufferHandler)
    (elem_type : CompilerType) (index : Nat) :
    handler.GetCount = 0 ∧ handler.GetCapacity = 0 ∧
      handler.GetElementAtIndex index = none ∧ handler.IsValid = true ∧
      handler.GetElementType = handler.m_elem_type ∧
      (SwiftArrayEmptyBufferHandler.mk elem_type).GetElementType = elem_type :=
  ⟨rfl, rfl, rfl, rfl, rfl, rfl⟩

/-! ## Properties of `GetIdentifier` -/

/-- The scan of `GetIdentifier` stops behind the longest run of identifier characters. -/
theorem GetIdentifier_loop_eq (l : Str) (i : Nat) :
    GetIdentifier.loop l i = i + (l.takeWhile (fun ch => ch.isAlphanum || ch == '_')).length := by
  induction l generalizing i with
  | nil => simp [GetIdentifier.loop]
  | cons a t ih =>
    by_cases h : (a.isAlphanum || a == '_') = true
    · simp only [GetIdentifier.loop, h, if_true, List.takeWhile_cons, List.length_cons, ih]
      omega
    · simp [GetIdentifier.loop, h, List.takeWhile_cons]

/-- Cutting a string behind the longest prefix that satisfies `p` gives that prefix. -/
theorem take_length_takeWhile (p : Char → Bool) (l : Str) :
    l.take (l.takeWhile p).length = l.takeWhile p := by
  induction l with
  | nil => simp
  | cons a t ih =>
    by_cases h : p a = true
    · simp [List.takeWhile_cons, h, ih]
    · simp [List.takeWhile_cons, h]

/-- Dropping the longest prefix that satisfies `p` by its length gives the rest. -/
theorem drop_length_takeWhile (p : Char → Bool) (l : Str) :
    l.drop (l.takeWhile p).length = l.dropWhile p := by
  induction l with
  | nil => simp
  | cons a t ih =>
    by_cases h : p a = true
    · simp [List.takeWhile_cons, List.dropWhile_cons, h, ih]
    · simp [List.takeWhile_cons, List.dropWhile_cons, h]

/-- A letter is an alphanumeric character. -/
theorem isAlphanum_of_isAlpha (ch : Char) (h : (ch.isAlpha || ch == '_') = true) :
    (ch.isAlphanum || ch == '_') = true := by
  simp only [Char.isAlphanum, Bool.or_eq_true] at *
  tauto

/-- The result of `GetIdentifier` on a string that starts with a letter or an underscore. -/
theorem GetIdentifier_succeeds (s identifier : Str) (ch : Char)
    (hhead : s.head? = some ch) (hch : (ch.isAlpha || ch == '_') = true) :
    GetIdentifier s identifier =
      (true, s.dropWhile (fun ch => ch.isAlphanum || ch == '_'),
        s.takeWhile (fun ch => ch.isAlphanum || ch == '_')) := by
  cases s with
  | nil => simp at hhead
  | cons a t =>
    simp only [List.head?_cons, Option.some.injEq] at hhead
    subst hhead
    have hlen : GetIdentifier.loop ((a :: t).drop 1) 1 =
        ((a :: t).takeWhile (fun ch => ch.isAlphanum || ch == '_')).length := by
      rw [GetIdentifier_loop_eq]
      simp [List.takeWhile_cons, isAlphanum_of_isAlpha a hch]
      omega
    simp only [GetIdentifier, hch, if_true]
    rw [hlen, take_length_takeWhile, drop_length_takeWhile]

/-- Claim C15: `GetIdentifier` succeeds exactly on a string whose first character is a
letter or an underscore; then the identifier is the longest prefix made of letters, digits
and underscores, which is not empty, `s` becomes the rest, which does not start with such a
character, and the identifier followed by the rest is the string given; on failure `s` and
`identifier` keep their values. -/
theorem GetIdentifier_spec (s identifier : Str) :
    ((GetIdentifier s identifier).1 = true ↔
      ∃ ch, s.head? = some ch ∧ (ch.isAlpha = true ∨ ch = '_')) ∧
    ((GetIdentifier s identifier).1 = true →
      (GetIdentifier s identifier).2.2 =
          s.takeWhile (fun ch => ch.isAlphanum || ch == '_') ∧
        (GetIdentifier s identifier).2.2 ≠ [] ∧
        (∀ ch ∈ (GetIdentifier s identifier).2.2, ch.isAlphanum = true ∨ ch = '_') ∧
        (∀ ch, (GetIdentifier s identifier).2.1.head? = some ch →
          ¬ (ch.isAlphanum = true ∨ ch = '_')) ∧
        (GetIdentifier s identifier).2.2 ++ (GetIdentifier s identifier).2.1 = s) ∧
    ((GetIdentifier s identifier).1 = false →
      (GetIdentifier s identifier).2.1 = s ∧ (GetIdentifier s identifier).2.2 = identifier) := by
  cases s with
  | nil => simp [GetIdentifier]
  | cons a t =>
    by_cases hch : (a.isAlpha || a == '_') = true
    · rw [GetIdentifier_succeeds (a :: t) identifier a rfl hch]
      have hp := isAlphanum_of_isAlpha a hch
      refine ⟨?_, ?_, ?_⟩
      · simp only [true_iff]
        exact ⟨a, rfl, by simpa using hch⟩
      · intro _
        refine ⟨rfl, ?_, ?_, ?_, ?_⟩
        · simp [List.takeWhile_cons, hp]
        · intro ch hmem
          have := List.mem_takeWhile_imp hmem
          simpa using this
        · intro ch hhead
          have hne : (a :: t).dropWhile (fun ch => ch.isAlphanum || ch == '_') ≠ [] := by
            intro hnil
            rw [hnil] at hhead
            simp at hhead
          have hnot := List.head_dropWhile_not (fun ch => ch.isAlphanum || ch == '_')
            (a :: t) hne
          have heq : ((a :: t).dropWhile (fun ch => ch.isAlphanum || ch == '_')).head hne
              = ch := by
            have := List.head?_eq_head hne
            rw [hhead] at this
            exact (Option.some.inj this).symm
          rw [heq] at hnot
          simpa using hnot
        · exact List.takeWhile_append_dropWhile _ _
      · intro h
        simp at h
    · have hfail : GetIdentifier (a :: t) identifier = (false, a :: t, identifier) := by
        simp only [GetIdentifier, hch]
        rfl
      rw [hfail]
      refine ⟨?_, ?_, ?_⟩
      · simp only [Bool.false_eq_true, false_iff]
        rintro ⟨ch, hhead, hc⟩
        simp only [List.head?_cons, Option.some.injEq] at hhead
        subst hhead
        apply hch
        simpa using hc
      · intro h
        simp at h
      · intro _
        exact ⟨rfl, rfl⟩

/-! ## Range of the character accesses -/

/-- With the cursor inside the line and not at column 0, the character in front of the
cursor is a character of the line. -/
theorem strAt_before_cursor (last_line : Str) (cursor_position : Int)
    (h0 : 0 ≤ cursor_position) (hle : cursor_position ≤ last_line.length)
    (hne : cursor_position ≠ 0) :
    ∃ ch, last_line[(cursor_position - 1).toNat]? = some ch ∧
      strAt last_line (cursor_position - 1) = some ch := by
  obtain ⟨n, hn⟩ : ∃ n : Nat, cursor_position - 1 = n :=
    ⟨(cursor_position - 1).toNat, by omega⟩
  have hlt : n < last_line.length := by omega
  rw [hn, strAt_natCast _ _ hlt]
  exact ⟨last_line[n], by simp [List.getElem?_eq_getElem hlt], List.getElem?_eq_getElem hlt⟩

/-- The value of the local `outdent` is always defined: `front` and `back` are applied to a
string that is not empty. -/
theorem colonOutdent_defined (rest ident : Str) : ∃ b, colonOutdent rest ident = some b := by
  unfold colonOutdent
  by_cases hrest : ltrim rest = []
  · simp [hrest]
  · by_cases hcase : ident = "case".toList
    · simp [hrest, hcase]
    · have hb : (ident == "case".toList) = false := by simpa using hcase
      simp only [List.isEmpty_eq_true, hrest, if_false, hb, Bool.false_eq_true]
      exact ⟨_, wrappedInParens_of_ne_nil _ (rtrim_ltrim_ne_nil rest hrest)⟩

/-- Claim C16: for a non-empty list of lines and a cursor between 0 and the length of the
last line, every character access of `GetDesiredIndentation` is in range: the character in
front of the cursor is read only for a cursor of at least 1 and is a character of the line,
the character at the actual indentation is read under the guard that makes it a character of
the line, `front` and `back` are applied to a string that is not empty, and so both rules
and the method return a value. -/
theorem accesses_in_range (probe : List Str → SourceCompleteResult) (lines : List Str)
    (last_line : Str) (cursor_position tab_size : Int)
    (hlast : lines.getLast? = some last_line)
    (h0 : 0 ≤ cursor_position) (hle : cursor_position ≤ last_line.length) :
    (cursor_position ≠ 0 → 1 ≤ cursor_position ∧
      ∃ ch, last_line[(cursor_position - 1).toNat]? = some ch ∧
        strAt last_line (cursor_position - 1) = some ch) ∧
    (last_line.length > CalculateActualIndentation lines →
      ∃ ch, last_line[CalculateActualIndentation lines]? = some ch ∧
        strAt last_line (CalculateActualIndentation lines) = some ch) ∧
    (∀ rest : Str, ltrim rest ≠ [] →
      rtrim (ltrim rest) ≠ [] ∧ ∃ b, wrappedInParens (rtrim (ltrim rest)) = some b) ∧
    (∀ rest ident : Str, ∃ b, colonOutdent rest ident = some b) ∧
    (∀ d : Int, ∃ r, braceRule lines last_line cursor_position tab_size d = some r) ∧
    (∀ d : Int, ∃ r, colonRule last_line cursor_position tab_size d = some r) ∧
    ∃ r, GetDesiredIndentation probe lines cursor_position tab_size = some r := by
  have hcursor : ∀ c, ∃ b, cursorAfter last_line cursor_position c = some b := by
    intro c
    unfold cursorAfter
    by_cases hne : cursor_position = 0
    · simp [hne]
    · obtain ⟨ch, -, hch⟩ := strAt_before_cursor last_line cursor_position h0 hle hne
      simp [hne, hch]
  have hindent : last_line.length > CalculateActualIndentation lines →
      ∃ ch, last_line[CalculateActualIndentation lines]? = some ch ∧
        strAt last_line (CalculateActualIndentation lines) = some ch := by
    intro hlt
    rw [strAt_natCast _ _ hlt]
    exact ⟨last_line[CalculateActualIndentation lines], List.getElem?_eq_getElem hlt,
      List.getElem?_eq_getElem hlt⟩
  have hbraceRule : ∀ d : Int, ∃ r,
      braceRule lines last_line cursor_position tab_size d = some r := by
    intro d
    obtain ⟨b, hb⟩ := hcursor '}'
    unfold braceRule
    rw [hb]
    cases b with
    | false => exact ⟨none, by simp⟩
    | true =>
      by_cases hlt : last_line.length > CalculateActualIndentation lines
      · obtain ⟨ch, -, hch⟩ := hindent hlt
        by_cases hc : ch = '}'
        · exact ⟨some (unindent d tab_size), by simp [hlt, hch, hc]⟩
        · exact ⟨none, by simp [hlt, hch, hc]⟩
      · exact ⟨none, by simp [hlt]⟩
  have hcolonRule : ∀ d : Int, ∃ r,
      colonRule last_line cursor_position tab_size d = some r := by
    intro d
    obtain ⟨b, hb⟩ := hcursor ':'
    unfold colonRule
    rw [hb]
    cases b with
    | false => exact ⟨none, by simp⟩
    | true =>
      simp only [Option.some_bind, if_true]
      cases hfind : find_last_of last_line ':' with
      | none => exact ⟨none, rfl⟩
      | some colon_pos =>
        simp only []
        by_cases hempty : (ltrim (List.take colon_pos last_line)).isEmpty = true
        · exact ⟨none, by simp [hempty]⟩
        · simp only [hempty, Bool.not_false, Bool.not_eq_true', if_true]
          rcases hid : GetIdentifier (ltrim (List.take colon_pos last_line)) [] with
            ⟨flag, rest, ident⟩
          cases flag with
          | false => exact ⟨none, by simp⟩
          | true =>
            obtain ⟨o, ho⟩ := colonOutdent_defined rest ident
            cases o with
            | false => exact ⟨none, by simp [ho]⟩
            | true => exact ⟨some (unindent d tab_size), by simp [ho]⟩
  refine ⟨?_, hindent, ?_, colonOutdent_defined, hbraceRule, hcolonRule, ?_⟩
  · intro hne
    exact ⟨by omega, strAt_before_cursor last_line cursor_position h0 hle hne⟩
  · intro rest hrest
    exact ⟨rtrim_ltrim_ne_nil rest hrest,
      _, wrappedInParens_of_ne_nil _ (rtrim_ltrim_ne_nil rest hrest)⟩
  · rw [GetDesiredIndentation_of_last probe lines last_line cursor_position tab_size hlast]
    obtain ⟨r1, hr1⟩ := hbraceRule (desiredIndent (probe lines.dropLast) tab_size)
    obtain ⟨r2, hr2⟩ := hcolonRule (desiredIndent (probe lines.dropLast) tab_size)
    rw [hr1, hr2]
    cases r1 with
    | some v => exact ⟨toUInt64 v, rfl⟩
    | none =>
      cases r2 with
      | some v => exact ⟨toUInt64 v, rfl⟩
      | none =>
        by_cases hc : cursor_position = 0
        · exact ⟨toUInt64 (desiredIndent (probe lines.dropLast) tab_size), by simp [hc]⟩
        · exact ⟨LLDB_INVALID_OFFSET, by simp [hc]⟩

/-- The line `foo (x):` with the cursor behind the colon: every access is in range and the
method returns a value. -/
theorem accesses_in_range_witness :
    ∃ r, GetDesiredIndentation (fun _ => ⟨false, [], 2⟩)
      ["switch x \x7b".toList, "foo (x):".toList] 8 4 = some r :=
  (accesses_in_range (fun _ => ⟨false, [], 2⟩) ["switch x \x7b".toList, "foo (x):".toList]
    "foo (x):".toList 8 4 (by decide) (by decide) (by decide)).2.2.2.2.2.2

end SwiftREPL
